import Mathlib

/-!
# Verification of the Retail-Billing inventory/ledger subsystem

A shallow embedding of the stock-ledger and bill/invoice lifecycle logic of
the Retail-Billing application (`sales.py`, `purchases.py`, `utils.py`).

Modelling conventions:
* Python `float` quantities/amounts are modelled as `ℚ`.  All arithmetic the
  ledger code performs on them (`+`, `-`, `max`, comparisons against the
  literal tolerances `1e-6`/`1e-9`/`0.01`) is mirrored exactly on `ℚ`.
* The SQLite `purchase_stock` table is a list of rows `(product_name, quantity)`
  in insertion order.  `SELECT ... fetchone()` is the first matching row,
  `UPDATE ... WHERE` rewrites every matching row, `INSERT` appends.
  The sales-side functions match rows with `lower(product_name) = lower(?)`
  after normalizing the argument; the purchases-side functions
  (`inventory_add`/`inventory_subtract`) match `product_name = ?` exactly,
  as in the source.
* SQL `lower` / Python `str.lower` is modelled character-wise
  (`Char.toLower`), and Python `str.strip`/`split` are modelled over the
  character list of the string.
-/

namespace RetailBilling

/-- Character-wise lowercasing, modelling SQL `lower()` / Python `.lower()`
on the product names the program handles. -/
def lowerStr (s : String) : String := (s.toList.map Char.toLower).asString

/-- Split a character list at every character satisfying `p` (separators are
dropped; empty segments are kept), modelling Python's `str.split(sep)` /
the segmentation underlying `str.split()`. -/
def splitPred (p : Char → Bool) (cs : List Char) : List (List Char) :=
  cs.foldr
    (fun c acc =>
      match acc with
      | g :: gs => if p c then [] :: g :: gs else (c :: g) :: gs
      | [] => if p c then [[], []] else [[c]])
    [[]]

/-- `normalize_product_name` (sales.py): strip and collapse whitespace,
i.e. Python `' '.join(str(name).strip().split())`. -/
def normalize_product_name (name : String) : String :=
  String.intercalate " "
    (((splitPred Char.isWhitespace name.toList).filter (· ≠ [])).map List.asString)

/-- The `purchase_stock` table: rows `(product_name, quantity)` in insertion
order.  `product_name` is the primary key as stored. -/
abbrev StockTable := List (String × ℚ)

/-- `SELECT quantity FROM purchase_stock WHERE lower(product_name)=lower(?)`
followed by `fetchone()`: the first row whose stored name matches the
(already normalized) argument case-insensitively. -/
def stockSelect (t : StockTable) (pname : String) : Option ℚ :=
  (t.find? (fun r => lowerStr r.1 == lowerStr pname)).map (·.2)

/-- `UPDATE purchase_stock SET quantity=? WHERE lower(product_name)=lower(?)`:
every case-insensitively matching row gets the new quantity. -/
def stockUpdate (t : StockTable) (pname : String) (v : ℚ) : StockTable :=
  t.map (fun r => if lowerStr r.1 = lowerStr pname then (r.1, v) else r)

/-- `SELECT quantity FROM purchase_stock WHERE product_name=?` (exact match,
as used by `inventory_add`/`inventory_subtract` in purchases.py). -/
def stockSelectExact (t : StockTable) (p : String) : Option ℚ :=
  (t.find? (fun r => r.1 == p)).map (·.2)

/-- `UPDATE purchase_stock SET quantity=? WHERE product_name=?` (exact match). -/
def stockUpdateExact (t : StockTable) (p : String) (v : ℚ) : StockTable :=
  t.map (fun r => if r.1 = p then (r.1, v) else r)

/-- `inventory_add` (purchases.py:38): add `qty` to the row for `p`
(exact-name match), inserting the row with quantity `qty` if absent.
Note: the source has no `qty > 0` guard. -/
def inventory_add (t : StockTable) (p : String) (q : ℚ) : StockTable :=
  match stockSelectExact t p with
  | some cur => stockUpdateExact t p (cur + q)
  | none => t ++ [(p, q)]

/-- `inventory_subtract` (purchases.py:56): subtract `qty` from the row for
`p` (exact-name match), floored at 0; no-op if the row is absent. -/
def inventory_subtract (t : StockTable) (p : String) (q : ℚ) : StockTable :=
  match stockSelectExact t p with
  | some cur => stockUpdateExact t p (max 0 (cur - q))
  | none => t

/-- A line item of a sales bill: the dicts
`{"Product Name": ..., "Quantity": ..., "Sale Price": ...}` of sales.py.
The stock functions only read the name and the quantity. -/
structure SaleItem where
  name : String
  qty : ℚ
  price : ℚ
deriving DecidableEq, Repr

/-- The per-item body of `reduce_stock_in_db` (sales.py:200): skip items with
an empty normalized name or non-positive quantity; otherwise subtract the
quantity from the (case-insensitively) matching row, floored at 0; no-op if
the row is absent. -/
def reduce_stock_one (t : StockTable) (i : SaleItem) : StockTable :=
  let pname := normalize_product_name i.name
  if pname = "" ∨ i.qty ≤ 0 then t
  else
    match stockSelect t pname with
    | some cur => stockUpdate t pname (max 0 (cur - i.qty))
    | none => t

/-- `reduce_stock_in_db` (sales.py:200): fold of `reduce_stock_one` over the
sold products. -/
def reduce_stock_in_db (t : StockTable) (ps : List SaleItem) : StockTable :=
  ps.foldl reduce_stock_one t

/-- The per-item body of `increase_stock_in_db` (sales.py:229): skip items
with an empty normalized name or non-positive quantity; insert the row
(with the normalized name) if absent, otherwise add the quantity. -/
def increase_stock_one (t : StockTable) (i : SaleItem) : StockTable :=
  let pname := normalize_product_name i.name
  if pname = "" ∨ i.qty ≤ 0 then t
  else
    match stockSelect t pname with
    | some cur => stockUpdate t pname (cur + i.qty)
    | none => t ++ [(pname, i.qty)]

/-- `increase_stock_in_db` (sales.py:229). -/
def increase_stock_in_db (t : StockTable) (ps : List SaleItem) : StockTable :=
  ps.foldl increase_stock_one t

/-- The quantity the sales-side code sees for the (already lowercased) key
`k`: the first row whose lowercased stored name is `k`, else 0. -/
def stockQtyAt (t : StockTable) (k : String) : ℚ :=
  match t.find? (fun r => lowerStr r.1 == k) with
  | some r => r.2
  | none => 0

/-- `get_available_stock` (sales.py:742): normalize the argument, then read
the quantity of the first case-insensitively matching row, else 0. -/
def get_available_stock (t : StockTable) (name : String) : ℚ :=
  stockQtyAt t (lowerStr (normalize_product_name name))

/-- The aggregation key the sales code uses for a line item:
`normalize_product_name(name).lower()`. -/
def keyOf (i : SaleItem) : String := lowerStr (normalize_product_name i.name)

/-- Exact-name quantity view for the purchases-side ledger functions. -/
def stockQtyExact (t : StockTable) (p : String) : ℚ :=
  match stockSelectExact t p with
  | some cur => cur
  | none => 0

/-! ## C1: the stock-ledger operations and the non-negativity invariant -/

/-- One operation on the stock ledger, as enumerated by claim C1. -/
inductive StockOp where
  | invAdd (p : String) (q : ℚ)
  | invSub (p : String) (q : ℚ)
  | reduce (ps : List SaleItem)
  | increase (ps : List SaleItem)

/-- Apply one stock-ledger operation. -/
def applyStockOp (t : StockTable) : StockOp → StockTable
  | .invAdd p q => inventory_add t p q
  | .invSub p q => inventory_subtract t p q
  | .reduce ps => reduce_stock_in_db t ps
  | .increase ps => increase_stock_in_db t ps

/-- Apply a sequence of stock-ledger operations. -/
def applyStockOps (t : StockTable) (ops : List StockOp) : StockTable :=
  ops.foldl applyStockOp t

/-- Every stored quantity is non-negative. -/
def stockNonNeg (t : StockTable) : Prop := ∀ r ∈ t, 0 ≤ r.2

/-- `inventory_add` only receives a non-negative quantity; the other three
operations are unrestricted. -/
def opSafe : StockOp → Prop
  | .invAdd _ q => 0 ≤ q
  | _ => True

theorem stockNonNeg_stockUpdate {t : StockTable} {p : String} {v : ℚ}
    (ht : stockNonNeg t) (hv : 0 ≤ v) : stockNonNeg (stockUpdate t p v) := by
  intro r hr
  rcases List.mem_map.mp hr with ⟨s, hs, rfl⟩
  by_cases h : lowerStr s.1 = lowerStr p
  · simp [h, hv]
  · simpa [h] using ht s hs

theorem stockNonNeg_stockUpdateExact {t : StockTable} {p : String} {v : ℚ}
    (ht : stockNonNeg t) (hv : 0 ≤ v) : stockNonNeg (stockUpdateExact t p v) := by
  intro r hr
  rcases List.mem_map.mp hr with ⟨s, hs, rfl⟩
  by_cases h : s.1 = p
  · simp [h, hv]
  · simpa [h] using ht s hs

theorem stockSelect_nonneg {t : StockTable} {p : String} {cur : ℚ}
    (ht : stockNonNeg t) (h : stockSelect t p = some cur) : 0 ≤ cur := by
  unfold stockSelect at h
  rcases Option.map_eq_some'.mp h with ⟨r, hr, rfl⟩
  exact ht r (List.mem_of_find?_eq_some hr)

theorem stockSelectExact_nonneg {t : StockTable} {p : String} {cur : ℚ}
    (ht : stockNonNeg t) (h : stockSelectExact t p = some cur) : 0 ≤ cur := by
  unfold stockSelectExact at h
  rcases Option.map_eq_some'.mp h with ⟨r, hr, rfl⟩
  exact ht r (List.mem_of_find?_eq_some hr)

theorem stockNonNeg_append {t : StockTable} {p : String} {q : ℚ}
    (ht : stockNonNeg t) (hq : 0 ≤ q) : stockNonNeg (t ++ [(p, q)]) := by
  intro r hr
  rcases List.mem_append.mp hr with h | h
  · exact ht r h
  · rcases List.mem_singleton.mp h with rfl
    exact hq

theorem stockNonNeg_inventory_add {t : StockTable} {p : String} {q : ℚ}
    (ht : stockNonNeg t) (hq : 0 ≤ q) : stockNonNeg (inventory_add t p q) := by
  unfold inventory_add
  cases hsel : stockSelectExact t p with
  | some cur =>
    exact stockNonNeg_stockUpdateExact ht
      (add_nonneg (stockSelectExact_nonneg ht hsel) hq)
  | none => exact stockNonNeg_append ht hq

theorem stockNonNeg_inventory_subtract {t : StockTable} {p : String} {q : ℚ}
    (ht : stockNonNeg t) : stockNonNeg (inventory_subtract t p q) := by
  unfold inventory_subtract
  cases hsel : stockSelectExact t p with
  | some cur => exact stockNonNeg_stockUpdateExact ht (le_max_left 0 _)
  | none => exact ht

theorem stockNonNeg_reduce_one {t : StockTable} {i : SaleItem}
    (ht : stockNonNeg t) : stockNonNeg (reduce_stock_one t i) := by
  unfold reduce_stock_one
  by_cases hg : normalize_product_name i.name = "" ∨ i.qty ≤ 0
  · simpa [hg] using ht
  · simp only [hg, if_false]
    cases hsel : stockSelect t (normalize_product_name i.name) with
    | some cur => exact stockNonNeg_stockUpdate ht (le_max_left 0 _)
    | none => exact ht

theorem stockNonNeg_increase_one {t : StockTable} {i : SaleItem}
    (ht : stockNonNeg t) : stockNonNeg (increase_stock_one t i) := by
  unfold increase_stock_one
  by_cases hg : normalize_product_name i.name = "" ∨ i.qty ≤ 0
  · simpa [hg] using ht
  · simp only [hg, if_false]
    have hq : 0 ≤ i.qty := le_of_lt (lt_of_not_le (fun h => hg (Or.inr h)))
    cases hsel : stockSelect t (normalize_product_name i.name) with
    | some cur =>
      exact stockNonNeg_stockUpdate ht (add_nonneg (stockSelect_nonneg ht hsel) hq)
    | none => exact stockNonNeg_append ht hq

theorem stockNonNeg_reduce_all {t : StockTable} {ps : List SaleItem}
    (ht : stockNonNeg t) : stockNonNeg (reduce_stock_in_db t ps) := by
  induction ps generalizing t with
  | nil => exact ht
  | cons i tl ih => exact ih (stockNonNeg_reduce_one ht)

theorem stockNonNeg_increase_all {t : StockTable} {ps : List SaleItem}
    (ht : stockNonNeg t) : stockNonNeg (increase_stock_in_db t ps) := by
  induction ps generalizing t with
  | nil => exact ht
  | cons i tl ih => exact ih (stockNonNeg_increase_one ht)

theorem stockNonNeg_applyStockOp {t : StockTable} {op : StockOp}
    (ht : stockNonNeg t) (hop : opSafe op) : stockNonNeg (applyStockOp t op) := by
  cases op with
  | invAdd p q => exact stockNonNeg_inventory_add ht hop
  | invSub p q => exact stockNonNeg_inventory_subtract ht
  | reduce ps => exact stockNonNeg_reduce_all ht
  | increase ps => exact stockNonNeg_increase_all ht

/-- Claim C1 (counterexample): `inventory_add` has no positivity guard on its
quantity argument, so a single `inventory_add` with a negative qty produces a
stored quantity `-5 < 0` from an all-non-negative starting table. -/
theorem stock_nonneg_fails_for_negative_inventory_add :
    applyStockOps [] [StockOp.invAdd "x" (-5)] = [("x", (-5 : ℚ))] ∧
      ¬ stockNonNeg (applyStockOps [] [StockOp.invAdd "x" (-5)]) := by
  have h : applyStockOps [] [StockOp.invAdd "x" (-5)] = [("x", (-5 : ℚ))] := rfl
  refine ⟨h, ?_⟩
  intro hnn
  have := hnn ("x", (-5 : ℚ)) (by rw [h]; exact List.mem_singleton_self _)
  norm_num at this

/-- Claim C1 (amended): provided every `inventory_add` in the sequence is
given a non-negative quantity (which is how the program calls it — quantities
are validated positive at entry), every stored quantity stays ≥ 0 after each
prefix of any operation sequence, regardless of subtract-overshoot and of
non-positive arguments to the other three operations. -/
theorem stock_nonneg_invariant (t : StockTable) (ops : List StockOp)
    (ht : stockNonNeg t) (hsafe : ∀ op ∈ ops, opSafe op) :
    ∀ n : ℕ, stockNonNeg (applyStockOps t (ops.take n)) := by
  intro n
  induction n generalizing t ops with
  | zero => simpa [applyStockOps] using ht
  | succ n ih =>
    cases ops with
    | nil => simpa [applyStockOps] using ht
    | cons op tl =>
      have h1 : stockNonNeg (applyStockOp t op) :=
        stockNonNeg_applyStockOp ht (hsafe op (List.mem_cons_self op tl))
      have h2 := ih (applyStockOp t op) tl h1
        (fun o ho => hsafe o (List.mem_cons_of_mem _ ho))
      simpa [applyStockOps] using h2

/-- Witness for `stock_nonneg_invariant` at a concrete table and operation
sequence (an overshooting subtract and a non-positive-qty reduce included). -/
theorem stock_nonneg_invariant_witness :
    stockNonNeg
      (applyStockOps [("Urea", 5)]
        [StockOp.invAdd "DAP" 3, StockOp.invSub "Urea" 100,
         StockOp.reduce [⟨"DAP", -2, 1⟩]] ) := by
  have h := stock_nonneg_invariant [("Urea", 5)]
    [StockOp.invAdd "DAP" 3, StockOp.invSub "Urea" 100,
     StockOp.reduce [⟨"DAP", -2, 1⟩]]
    (by
      intro r hr
      rcases List.mem_singleton.mp hr with rfl
      norm_num)
    (by
      intro op hop
      simp only [List.mem_cons, List.not_mem_nil, or_false] at hop
      rcases hop with rfl | rfl | rfl <;> simp [opSafe])
    3
  simpa using h

/-! ## Per-key quantity accounting for the sales-side stock functions -/

/-- The part of a line item the stock functions depend on: its normalized
name and its quantity. -/
def sigOf (i : SaleItem) : String × ℚ := (normalize_product_name i.name, i.qty)

/-- Aggregated quantity for lowered key `k` over a list of `(normalized
name, qty)` pairs. -/
def sumKeyS (k : String) (sigs : List (String × ℚ)) : ℚ :=
  ((sigs.filter (fun s => lowerStr s.1 == k)).map Prod.snd).sum

/-- Aggregated quantity for lowered key `k` over a list of line items — the
`agg`/`to_map` dictionaries of sales.py evaluated at one key. -/
def sumKey (k : String) (items : List SaleItem) : ℚ :=
  sumKeyS k (items.map sigOf)

theorem sumKey_congr {k : String} {items₁ items₂ : List SaleItem}
    (h : items₁.map sigOf = items₂.map sigOf) :
    sumKey k items₁ = sumKey k items₂ := by
  unfold sumKey
  rw [h]

theorem sumKey_nil {k : String} : sumKey k [] = 0 := rfl

theorem sumKey_cons {k : String} {i : SaleItem} {tl : List SaleItem} :
    sumKey k (i :: tl) = (if keyOf i = k then i.qty else 0) + sumKey k tl := by
  unfold sumKey sumKeyS keyOf sigOf
  by_cases h : lowerStr (normalize_product_name i.name) = k
  · simp [List.filter_cons, h]
  · simp [List.filter_cons, h]

theorem sumKey_nonneg {k : String} {items : List SaleItem}
    (h : ∀ i ∈ items, 0 < i.qty) : 0 ≤ sumKey k items := by
  induction items with
  | nil => simp [sumKey_nil]
  | cons i tl ih =>
    rw [sumKey_cons]
    have h1 : 0 ≤ sumKey k tl := ih (fun j hj => h j (List.mem_cons_of_mem _ hj))
    have h2 : 0 < i.qty := h i (List.mem_cons_self _ _)
    by_cases hk : keyOf i = k
    · simp only [hk, if_pos rfl]
      positivity
    · simpa [hk] using h1

theorem stockQtyAt_cons (x : String × ℚ) (l : StockTable) (k : String) :
    stockQtyAt (x :: l) k = if lowerStr x.1 = k then x.2 else stockQtyAt l k := by
  by_cases h : lowerStr x.1 = k
  · rw [if_pos h]
    unfold stockQtyAt
    rw [List.find?_cons_of_pos _ (by simpa using h)]
  · rw [if_neg h]
    unfold stockQtyAt
    rw [List.find?_cons_of_neg _ (by simpa using h)]

theorem stockSelect_cons (x : String × ℚ) (l : StockTable) (p : String) :
    stockSelect (x :: l) p =
      if lowerStr x.1 = lowerStr p then some x.2 else stockSelect l p := by
  by_cases h : lowerStr x.1 = lowerStr p
  · rw [if_pos h]
    unfold stockSelect
    rw [List.find?_cons_of_pos _ (by simpa using h)]
    rfl
  · rw [if_neg h]
    unfold stockSelect
    rw [List.find?_cons_of_neg _ (by simpa using h)]

theorem stockUpdate_cons (x : String × ℚ) (l : StockTable) (p : String) (v : ℚ) :
    stockUpdate (x :: l) p v =
      (if lowerStr x.1 = lowerStr p then (x.1, v) else x) :: stockUpdate l p v := rfl

/-- `stockQtyAt` at the key of the query is the selected quantity (or 0). -/
theorem stockQtyAt_lower (t : StockTable) (p : String) :
    stockQtyAt t (lowerStr p) = (stockSelect t p).getD 0 := by
  unfold stockQtyAt stockSelect
  cases h : t.find? (fun r => lowerStr r.1 == lowerStr p) <;> simp [h]

theorem stockQtyAt_stockUpdate_ne {t : StockTable} {p : String} {v : ℚ} {k : String}
    (h : ¬ lowerStr p = k) :
    stockQtyAt (stockUpdate t p v) k = stockQtyAt t k := by
  induction t with
  | nil => rfl
  | cons r tl ih =>
    rw [stockUpdate_cons]
    by_cases hr : lowerStr r.1 = lowerStr p
    · rw [if_pos hr, stockQtyAt_cons, stockQtyAt_cons]
      have hk : ¬ lowerStr r.1 = k := by rw [hr]; exact h
      simp only [hk, if_false]
      exact ih
    · rw [if_neg hr, stockQtyAt_cons, stockQtyAt_cons]
      by_cases hk : lowerStr r.1 = k
      · simp [hk]
      · simp only [hk, if_false]
        exact ih

theorem stockQtyAt_stockUpdate_self (t : StockTable) (p : String) (v : ℚ) :
    stockQtyAt (stockUpdate t p v) (lowerStr p) =
      match stockSelect t p with
      | some _ => v
      | none => 0 := by
  induction t with
  | nil => rfl
  | cons r tl ih =>
    rw [stockUpdate_cons, stockSelect_cons]
    by_cases hr : lowerStr r.1 = lowerStr p
    · rw [if_pos hr, stockQtyAt_cons]
      simp [hr]
    · rw [if_neg hr, stockQtyAt_cons]
      simp only [hr, if_false]
      exact ih

theorem stockQtyAt_append_single (t : StockTable) (nm : String) (q : ℚ) (k : String) :
    stockQtyAt (t ++ [(nm, q)]) k =
      match t.find? (fun r => lowerStr r.1 == k) with
      | some r => r.2
      | none => if lowerStr nm = k then q else 0 := by
  unfold stockQtyAt
  rw [List.find?_append]
  cases h : t.find? (fun r => lowerStr r.1 == k) with
  | some r => simp
  | none =>
    by_cases hk : lowerStr nm = k
    · rw [List.find?_cons_of_pos _ (by simpa using hk)]
      simp [hk]
    · rw [List.find?_cons_of_neg _ (by simpa using hk)]
      simp [hk]

theorem stockSelect_none_qtyAt {t : StockTable} {p : String}
    (h : stockSelect t p = none) : stockQtyAt t (lowerStr p) = 0 := by
  rw [stockQtyAt_lower, h]
  rfl

theorem stockSelect_some_qtyAt {t : StockTable} {p : String} {cur : ℚ}
    (h : stockSelect t p = some cur) : stockQtyAt t (lowerStr p) = cur := by
  rw [stockQtyAt_lower, h]
  rfl

/-- Effect of one `reduce_stock_in_db` step on the quantity at any key. -/
theorem stockQtyAt_reduce_one (t : StockTable) (i : SaleItem) (k : String) :
    stockQtyAt (reduce_stock_one t i) k =
      if normalize_product_name i.name = "" ∨ i.qty ≤ 0 then stockQtyAt t k
      else if keyOf i = k then max 0 (stockQtyAt t k - i.qty) else stockQtyAt t k := by
  unfold reduce_stock_one
  by_cases hg : normalize_product_name i.name = "" ∨ i.qty ≤ 0
  · simp [hg]
  · simp only [hg, if_false]
    have hq : 0 < i.qty := lt_of_not_le (fun h => hg (Or.inr h))
    by_cases hk : keyOf i = k
    · rw [if_pos hk]
      rw [← hk]
      unfold keyOf
      cases hsel : stockSelect t (normalize_product_name i.name) with
      | some cur =>
        simp only [hsel]
        rw [stockQtyAt_stockUpdate_self, hsel, stockSelect_some_qtyAt hsel]
      | none =>
        simp only [hsel]
        rw [stockSelect_none_qtyAt hsel]
        have hle : (0 : ℚ) - i.qty ≤ 0 := by linarith
        rw [max_eq_left hle]
    · rw [if_neg hk]
      cases hsel : stockSelect t (normalize_product_name i.name) with
      | some cur =>
        simp only [hsel]
        exact stockQtyAt_stockUpdate_ne (fun hh => hk (by unfold keyOf; exact hh))
      | none => simp [hsel]

/-- Effect of one `increase_stock_in_db` step on the quantity at any key. -/
theorem stockQtyAt_increase_one (t : StockTable) (i : SaleItem) (k : String) :
    stockQtyAt (increase_stock_one t i) k =
      if normalize_product_name i.name = "" ∨ i.qty ≤ 0 then stockQtyAt t k
      else if keyOf i = k then stockQtyAt t k + i.qty else stockQtyAt t k := by
  unfold increase_stock_one
  by_cases hg : normalize_product_name i.name = "" ∨ i.qty ≤ 0
  · simp [hg]
  · simp only [hg, if_false]
    by_cases hk : keyOf i = k
    · rw [if_pos hk]
      rw [← hk]
      unfold keyOf
      cases hsel : stockSelect t (normalize_product_name i.name) with
      | some cur =>
        simp only [hsel]
        rw [stockQtyAt_stockUpdate_self, hsel, stockSelect_some_qtyAt hsel]
      | none =>
        simp only [hsel]
        rw [stockSelect_none_qtyAt hsel, stockQtyAt_append_single]
        have hfind : t.find? (fun r =>
            lowerStr r.1 == lowerStr (normalize_product_name i.name)) = none := by
          unfold stockSelect at hsel
          exact Option.map_eq_none'.mp hsel
        rw [hfind]
        simp
    · rw [if_neg hk]
      cases hsel : stockSelect t (normalize_product_name i.name) with
      | some cur =>
        simp only [hsel]
        exact stockQtyAt_stockUpdate_ne (fun hh => hk (by unfold keyOf; exact hh))
      | none =>
        simp only [hsel]
        rw [stockQtyAt_append_single]
        cases hfind : t.find? (fun r => lowerStr r.1 == k) with
        | some r => simp [stockQtyAt, hfind]
        | none =>
          simp only [stockQtyAt, hfind]
          unfold keyOf at hk
          simp [hk]

/-- `reduce_stock_in_db` subtracts exactly the aggregated quantity at each
key, provided every item passes the guards and the aggregate does not exceed
the available quantity (so the floor at 0 is never hit). -/
theorem stockQtyAt_reduce_all {t : StockTable} {items : List SaleItem} {k : String}
    (hgood : ∀ i ∈ items, normalize_product_name i.name ≠ "" ∧ 0 < i.qty)
    (hsum : sumKey k items ≤ stockQtyAt t k) :
    stockQtyAt (reduce_stock_in_db t items) k = stockQtyAt t k - sumKey k items := by
  induction items generalizing t with
  | nil => simp [reduce_stock_in_db, sumKey_nil]
  | cons i tl ih =>
    have hi := hgood i (List.mem_cons_self _ _)
    have htl : ∀ j ∈ tl, normalize_product_name j.name ≠ "" ∧ 0 < j.qty :=
      fun j hj => hgood j (List.mem_cons_of_mem _ hj)
    have hstep := stockQtyAt_reduce_one t i k
    rw [if_neg (by push_neg; exact ⟨hi.1, hi.2⟩)] at hstep
    have hfold : reduce_stock_in_db t (i :: tl) =
        reduce_stock_in_db (reduce_stock_one t i) tl := rfl
    rw [sumKey_cons] at hsum ⊢
    by_cases hk : keyOf i = k
    · rw [if_pos hk] at hsum ⊢
      have hs0 : 0 ≤ sumKey k tl := sumKey_nonneg (fun j hj => (htl j hj).2)
      have hmax : max 0 (stockQtyAt t k - i.qty) = stockQtyAt t k - i.qty := by
        apply max_eq_right
        linarith
      rw [if_pos hk, hmax] at hstep
      rw [hfold, ih htl (by rw [hstep]; linarith)]
      rw [hstep]
      ring
    · rw [if_neg hk] at hsum hstep ⊢
      rw [hfold, ih htl (by rw [hstep]; linarith), hstep]
      ring

/-- `increase_stock_in_db` adds exactly the aggregated quantity at each key,
provided every item passes the guards. -/
theorem stockQtyAt_increase_all {t : StockTable} {items : List SaleItem} {k : String}
    (hgood : ∀ i ∈ items, normalize_product_name i.name ≠ "" ∧ 0 < i.qty) :
    stockQtyAt (increase_stock_in_db t items) k = stockQtyAt t k + sumKey k items := by
  induction items generalizing t with
  | nil => simp [increase_stock_in_db, sumKey_nil]
  | cons i tl ih =>
    have hi := hgood i (List.mem_cons_self _ _)
    have htl : ∀ j ∈ tl, normalize_product_name j.name ≠ "" ∧ 0 < j.qty :=
      fun j hj => hgood j (List.mem_cons_of_mem _ hj)
    have hstep := stockQtyAt_increase_one t i k
    rw [if_neg (by push_neg; exact ⟨hi.1, hi.2⟩)] at hstep
    have hfold : increase_stock_in_db t (i :: tl) =
        increase_stock_in_db (increase_stock_one t i) tl := rfl
    rw [sumKey_cons, hfold, ih htl, hstep]
    by_cases hk : keyOf i = k
    · rw [if_pos hk, if_pos hk]; ring
    · rw [if_neg hk, if_neg hk]; ring

/-! ## Guard-aware per-key accounting (items failing the guards contribute 0) -/

/-- An item passes the guards of `reduce_stock_in_db`/`increase_stock_in_db`. -/
def itemActive (i : SaleItem) : Prop :=
  ¬ (normalize_product_name i.name = "" ∨ i.qty ≤ 0)

instance (i : SaleItem) : Decidable (itemActive i) := by
  unfold itemActive; infer_instance

/-- Aggregated quantity at key `k` counting only items that pass the guards. -/
def sumKeyG (k : String) (items : List SaleItem) : ℚ :=
  items.foldr (fun i a => if itemActive i ∧ keyOf i = k then i.qty + a else a) 0

theorem sumKeyG_nil {k : String} : sumKeyG k [] = 0 := rfl

theorem sumKeyG_cons {k : String} {i : SaleItem} {tl : List SaleItem} :
    sumKeyG k (i :: tl) =
      (if itemActive i ∧ keyOf i = k then i.qty else 0) + sumKeyG k tl := by
  unfold sumKeyG
  by_cases h : itemActive i ∧ keyOf i = k
  · simp [h]
  · simp [h]

theorem sumKeyG_nonneg {k : String} {items : List SaleItem} : 0 ≤ sumKeyG k items := by
  induction items with
  | nil => simp [sumKeyG_nil]
  | cons i tl ih =>
    rw [sumKeyG_cons]
    by_cases h : itemActive i ∧ keyOf i = k
    · have : 0 < i.qty := lt_of_not_le (fun hle => h.1 (Or.inr hle))
      rw [if_pos h]
      linarith
    · rw [if_neg h]
      linarith

theorem sumKeyG_eq_sumKey {k : String} {items : List SaleItem}
    (h : ∀ i ∈ items, itemActive i) : sumKeyG k items = sumKey k items := by
  induction items with
  | nil => rfl
  | cons i tl ih =>
    rw [sumKeyG_cons, sumKey_cons,
      ih (fun j hj => h j (List.mem_cons_of_mem _ hj))]
    have hi : itemActive i := h i (List.mem_cons_self _ _)
    by_cases hk : keyOf i = k
    · simp [hk, hi]
    · simp [hk]

theorem sumKeyG_congr {k : String} {items₁ items₂ : List SaleItem}
    (h : items₁.map sigOf = items₂.map sigOf) :
    sumKeyG k items₁ = sumKeyG k items₂ := by
  induction items₁ generalizing items₂ with
  | nil =>
    cases items₂ with
    | nil => rfl
    | cons j tl₂ => simp at h
  | cons i tl₁ ih =>
    cases items₂ with
    | nil => simp at h
    | cons j tl₂ =>
      simp only [List.map_cons, List.cons.injEq] at h
      have hsig : sigOf i = sigOf j := h.1
      have hname : normalize_product_name i.name = normalize_product_name j.name :=
        congrArg Prod.fst hsig
      have hqty : i.qty = j.qty := congrArg Prod.snd hsig
      rw [sumKeyG_cons, sumKeyG_cons, ih h.2]
      have hact : itemActive i ↔ itemActive j := by
        unfold itemActive; rw [hname, hqty]
      have hkey : keyOf i = keyOf j := by
        unfold keyOf; rw [hname]
      by_cases hc : itemActive i ∧ keyOf i = k
      · rw [if_pos hc, if_pos ⟨hact.mp hc.1, hkey ▸ hc.2⟩, hqty]
      · rw [if_neg hc, if_neg (fun hc2 => hc ⟨hact.mpr hc2.1, hkey ▸ hc2.2⟩)]

/-- Unconditional per-key effect of `increase_stock_in_db`: the quantity at
any key grows by exactly the guard-passing aggregate at that key. -/
theorem stockQtyAt_increase_all_g (t : StockTable) (items : List SaleItem) (k : String) :
    stockQtyAt (increase_stock_in_db t items) k = stockQtyAt t k + sumKeyG k items := by
  induction items generalizing t with
  | nil => simp [increase_stock_in_db, sumKeyG_nil]
  | cons i tl ih =>
    have hfold : increase_stock_in_db t (i :: tl) =
        increase_stock_in_db (increase_stock_one t i) tl := rfl
    rw [hfold, ih, sumKeyG_cons, stockQtyAt_increase_one]
    by_cases hg : normalize_product_name i.name = "" ∨ i.qty ≤ 0
    · rw [if_pos hg, if_neg (fun hc => hc.1 hg)]
      ring
    · rw [if_neg hg]
      by_cases hk : keyOf i = k
      · rw [if_pos hk, if_pos ⟨hg, hk⟩]
        ring
      · rw [if_neg hk, if_neg (fun hc => hk hc.2)]
        ring

/-- Per-key effect of `reduce_stock_in_db` when the guard-passing aggregate
at the key does not exceed the available quantity (so the floor at 0 is
never hit at that key). -/
theorem stockQtyAt_reduce_all_g (t : StockTable) (items : List SaleItem) (k : String)
    (hsum : sumKeyG k items ≤ stockQtyAt t k) :
    stockQtyAt (reduce_stock_in_db t items) k = stockQtyAt t k - sumKeyG k items := by
  induction items generalizing t with
  | nil => simp [reduce_stock_in_db, sumKeyG_nil]
  | cons i tl ih =>
    have hfold : reduce_stock_in_db t (i :: tl) =
        reduce_stock_in_db (reduce_stock_one t i) tl := rfl
    rw [sumKeyG_cons] at hsum ⊢
    have hstep := stockQtyAt_reduce_one t i k
    have hs0 : 0 ≤ sumKeyG k tl := sumKeyG_nonneg
    by_cases hg : normalize_product_name i.name = "" ∨ i.qty ≤ 0
    · rw [if_pos hg] at hstep
      rw [if_neg (fun hc => hc.1 hg)] at hsum ⊢
      rw [hfold, ih (reduce_stock_one t i) (by rw [hstep]; linarith), hstep]
      ring
    · rw [if_neg hg] at hstep
      by_cases hk : keyOf i = k
      · rw [if_pos ⟨hg, hk⟩] at hsum ⊢
        rw [if_pos hk] at hstep
        have hq : 0 < i.qty := lt_of_not_le (fun hle => hg (Or.inr hle))
        have hmax : max 0 (stockQtyAt t k - i.qty) = stockQtyAt t k - i.qty := by
          apply max_eq_right
          linarith
        rw [hmax] at hstep
        rw [hfold, ih (reduce_stock_one t i) (by rw [hstep]; linarith), hstep]
        ring
      · rw [if_neg (fun hc => hk hc.2)] at hsum ⊢
        rw [if_neg hk] at hstep
        rw [hfold, ih (reduce_stock_one t i) (by rw [hstep]; linarith), hstep]
        ring

/-! ## C2: the delta engine of `update_loaded_bill` -/

/-- The float tolerance `1e-9` of update_loaded_bill. -/
def eps9 : ℚ := 1 / 1000000000

/-- The float tolerance `1e-6` of the stock-sufficiency checks. -/
def eps6 : ℚ := 1 / 1000000

/-- The `names` map of `to_map` (sales.py:1347) looked up at key `k`: the raw
name of the first product in the list with that aggregation key. -/
def firstNameFor (prods : List SaleItem) (k : String) : Option String :=
  (prods.find? (fun p => keyOf p == k)).map (·.name)

/-- Python's `a or d` for an optional string `a`: `d` when `a` is missing or
empty (falsy). -/
def pyOrStr (a : Option String) (d : String) : String :=
  match a with
  | some s => if s = "" then d else s
  | none => d

/-- `new_names.get(k) or old_names.get(k) or k` (sales.py:1364,1379). -/
def dispName (oldP newP : List SaleItem) (k : String) : String :=
  pyOrStr (firstNameFor newP k) (pyOrStr (firstNameFor oldP k) k)

/-- `set(old_map) | set(new_map)` (sales.py:1358), as a duplicate-free list.
(The Python set's iteration order is unspecified; per-key results below are
order-independent, and the model fixes first-occurrence order.) -/
def updKeys (oldP newP : List SaleItem) : List String :=
  ((oldP ++ newP).map keyOf).dedup

/-- `new_map.get(k, 0.0) - old_map.get(k, 0.0)`: the net per-product delta. -/
def deltaFor (oldP newP : List SaleItem) (k : String) : ℚ :=
  sumKey k newP - sumKey k oldP

/-- The `inc_list` of sales.py:1373: one item per key whose aggregated
quantity decreased by more than `1e-9` (stock to give back). -/
def incListOf (oldP newP : List SaleItem) : List SaleItem :=
  (updKeys oldP newP).filterMap (fun k =>
    let d := deltaFor oldP newP k
    if |d| ≤ eps9 then none
    else if d < 0 then some ⟨dispName oldP newP k, -d, 0⟩ else none)

/-- The `red_list` of sales.py:1374: one item per key whose aggregated
quantity increased by more than `1e-9` (extra stock to consume). -/
def redListOf (oldP newP : List SaleItem) : List SaleItem :=
  (updKeys oldP newP).filterMap (fun k =>
    let d := deltaFor oldP newP k
    if |d| ≤ eps9 then none
    else if d < 0 then none else some ⟨dispName oldP newP k, d, 0⟩)

/-- The stock part of `update_loaded_bill` (sales.py:1346-1387): validate all
positive deltas against available stock, and only if every one passes apply
the increases (for reduced quantities) and the reductions (for increased
quantities).  Returns `none` when the edit is rejected (no mutation). -/
def update_bill_stock (t : StockTable) (oldP newP : List SaleItem) :
    Option StockTable :=
  if ∃ k ∈ updKeys oldP newP, eps9 < deltaFor oldP newP k ∧
      get_available_stock t (dispName oldP newP k) + eps6 < deltaFor oldP newP k then
    none
  else
    some (reduce_stock_in_db
      (increase_stock_in_db t (incListOf oldP newP)) (redListOf oldP newP))

theorem lowerStr_eq_empty_iff (s : String) : lowerStr s = "" ↔ s = "" := by
  constructor
  · intro h
    unfold lowerStr at h
    have hdata : (s.toList.map Char.toLower) = [] := by
      have := congrArg String.data h
      simpa [List.asString] using this
    have : s.toList = [] := List.map_eq_nil_iff.mp hdata
    cases s with
    | mk data =>
      simp only [String.toList] at this
      simp [this]
  · intro h
    subst h
    rfl

/-- An item whose name is the display name chosen for key `k` aggregates back
to key `k`. -/
theorem keyOf_mk_dispName (oldP newP : List SaleItem) (k : String)
    (hk : k ∈ updKeys oldP newP) (q pr : ℚ) :
    keyOf ⟨dispName oldP newP k, q, pr⟩ = k := by
  have hname : ∀ (prods : List SaleItem) (nm : String),
      firstNameFor prods k = some nm → lowerStr (normalize_product_name nm) = k := by
    intro prods nm hfind
    unfold firstNameFor at hfind
    rcases Option.map_eq_some'.mp hfind with ⟨p, hp, rfl⟩
    have := List.find?_some hp
    simp only [beq_iff_eq] at this
    unfold keyOf at this
    exact this
  unfold dispName
  cases hnew : firstNameFor newP k with
  | some nm =>
    by_cases hnm : nm = ""
    · subst hnm
      have hkey : lowerStr (normalize_product_name "") = k := hname newP "" hnew
      have hke : k = "" := by
        rw [← hkey]
        rfl
      subst hke
      cases hold : firstNameFor oldP "" with
      | some nm' =>
        by_cases hnm' : nm' = ""
        · subst hnm'
          simp [pyOrStr]
          rfl
        · simp only [pyOrStr, if_pos rfl, if_neg hnm']
          unfold keyOf
          exact hname oldP nm' hold
      | none =>
        simp [pyOrStr]
        rfl
    · simp only [pyOrStr, if_neg hnm]
      unfold keyOf
      exact hname newP nm hnew
  | none =>
    cases hold : firstNameFor oldP k with
    | some nm' =>
      by_cases hnm' : nm' = ""
      · subst hnm'
        have hkey : lowerStr (normalize_product_name "") = k := hname oldP "" hold
        have hke : k = "" := by
          rw [← hkey]
          rfl
        subst hke
        simp [pyOrStr]
        rfl
      · simp only [pyOrStr, if_neg hnm']
        unfold keyOf
        exact hname oldP nm' hold
    | none =>
      exfalso
      rcases List.mem_dedup.mp hk with hmem
      rcases List.mem_map.mp hmem with ⟨i, hi, hkey⟩
      rcases List.mem_append.mp hi with hiold | hinew
      · have : (oldP.find? (fun p => keyOf p == k)).isSome := by
          rw [List.find?_isSome]
          exact ⟨i, hiold, by simp [hkey]⟩
        unfold firstNameFor at hold
        rw [Option.map_eq_none'] at hold
        rw [hold] at this
        simp at this
      · have : (newP.find? (fun p => keyOf p == k)).isSome := by
          rw [List.find?_isSome]
          exact ⟨i, hinew, by simp [hkey]⟩
        unfold firstNameFor at hnew
        rw [Option.map_eq_none'] at hnew
        rw [hnew] at this
        simp at this

/-- For a key `k ≠ ""` of the union, the chosen display name has a non-empty
normalized form (so the corresponding stock mutation is not skipped). -/
theorem dispName_active (oldP newP : List SaleItem) (k : String)
    (hk : k ∈ updKeys oldP newP) (hne : k ≠ "") :
    normalize_product_name (dispName oldP newP k) ≠ "" := by
  intro hempty
  apply hne
  have := keyOf_mk_dispName oldP newP k hk 1 1
  unfold keyOf at this
  rw [hempty] at this
  simpa using this.symm

/-- `sumKeyG` over a `filterMap` of a duplicate-free key list, when each
produced item aggregates back to the key that produced it. -/
theorem sumKeyG_filterMap_keys {keys : List String} {f : String → Option SaleItem}
    {k : String}
    (hf : ∀ k' ∈ keys, ∀ i, f k' = some i → keyOf i = k')
    (hnd : keys.Nodup) :
    sumKeyG k (keys.filterMap f) =
      if k ∈ keys then
        match f k with
        | some i => if itemActive i then i.qty else 0
        | none => 0
      else 0 := by
  induction keys with
  | nil => simp [sumKeyG_nil]
  | cons k₀ ks ih =>
    have hnd' : ks.Nodup := hnd.of_cons
    have hf' : ∀ k' ∈ ks, ∀ i, f k' = some i → keyOf i = k' :=
      fun k' hk' i hi => hf k' (List.mem_cons_of_mem _ hk') i hi
    cases hfk : f k₀ with
    | none =>
      rw [List.filterMap_cons_none hfk, ih hf' hnd']
      by_cases hmem : k = k₀
      · subst hmem
        have : k ∉ ks := (List.nodup_cons.mp hnd).1
        simp [this, hfk]
      · by_cases hks : k ∈ ks
        · simp [hks, List.mem_cons, hmem]
        · simp [hks, List.mem_cons, hmem]
    | some i =>
      have hkey : keyOf i = k₀ := hf k₀ (List.mem_cons_self _ _) i hfk
      rw [List.filterMap_cons_some hfk, sumKeyG_cons, ih hf' hnd']
      by_cases hmem : k = k₀
      · subst hmem
        have hnotin : k ∉ ks := (List.nodup_cons.mp hnd).1
        simp only [hnotin, if_false, List.mem_cons, true_or, if_pos, hfk]
        by_cases hact : itemActive i
        · simp [hact, hkey]
        · simp [hact, hkey]
      · have hkne : ¬ (itemActive i ∧ keyOf i = k) := by
          rintro ⟨-, hkk⟩
          exact hmem (by rw [← hkk, hkey])
        rw [if_neg hkne]
        by_cases hks : k ∈ ks
        · simp [hks, List.mem_cons, hmem]
        · simp [hks, List.mem_cons, hmem]

/-- If no guard-passing item at key `k` exists, `reduce_stock_in_db` leaves
the quantity at `k` unchanged (even when other keys hit the floor). -/
theorem stockQtyAt_reduce_all_zero (t : StockTable) (items : List SaleItem)
    (k : String) (h : sumKeyG k items = 0) :
    stockQtyAt (reduce_stock_in_db t items) k = stockQtyAt t k := by
  induction items generalizing t with
  | nil => rfl
  | cons i tl ih =>
    rw [sumKeyG_cons] at h
    have hs0 : 0 ≤ sumKeyG k tl := sumKeyG_nonneg
    have hhead : ¬ (itemActive i ∧ keyOf i = k) := by
      intro hc
      have hq : 0 < i.qty := lt_of_not_le (fun hle => hc.1 (Or.inr hle))
      rw [if_pos hc] at h
      linarith
    have htl : sumKeyG k tl = 0 := by
      rw [if_neg hhead] at h
      linarith
    have hfold : reduce_stock_in_db t (i :: tl) =
        reduce_stock_in_db (reduce_stock_one t i) tl := rfl
    have hstep := stockQtyAt_reduce_one t i k
    rw [hfold, ih (reduce_stock_one t i) htl, hstep]
    by_cases hg : normalize_product_name i.name = "" ∨ i.qty ≤ 0
    · rw [if_pos hg]
    · rw [if_neg hg]
      have : ¬ keyOf i = k := fun hk => hhead ⟨hg, hk⟩
      rw [if_neg this]

theorem incListOf_keys (oldP newP : List SaleItem) :
    ∀ k' ∈ updKeys oldP newP, ∀ i,
      (fun k =>
        let d := deltaFor oldP newP k
        if |d| ≤ eps9 then none
        else if d < 0 then some (⟨dispName oldP newP k, -d, 0⟩ : SaleItem)
        else none) k' = some i → keyOf i = k' := by
  intro k' hk' i hi
  simp only at hi
  by_cases h1 : |deltaFor oldP newP k'| ≤ eps9
  · rw [if_pos h1] at hi
    exact absurd hi (by simp)
  · rw [if_neg h1] at hi
    by_cases h2 : deltaFor oldP newP k' < 0
    · rw [if_pos h2] at hi
      cases hi
      exact keyOf_mk_dispName oldP newP k' hk' _ _
    · rw [if_neg h2] at hi
      exact absurd hi (by simp)

theorem redListOf_keys (oldP newP : List SaleItem) :
    ∀ k' ∈ updKeys oldP newP, ∀ i,
      (fun k =>
        let d := deltaFor oldP newP k
        if |d| ≤ eps9 then none
        else if d < 0 then none
        else some (⟨dispName oldP newP k, d, 0⟩ : SaleItem)) k' = some i →
      keyOf i = k' := by
  intro k' hk' i hi
  simp only at hi
  by_cases h1 : |deltaFor oldP newP k'| ≤ eps9
  · rw [if_pos h1] at hi
    exact absurd hi (by simp)
  · rw [if_neg h1] at hi
    by_cases h2 : deltaFor oldP newP k' < 0
    · rw [if_pos h2] at hi
      exact absurd hi (by simp)
    · rw [if_neg h2] at hi
      cases hi
      exact keyOf_mk_dispName oldP newP k' hk' _ _

/-- Claim C2: `update_loaded_bill` applies net per-product deltas keyed by
normalized product name.  (1) If any key's positive delta (beyond the `1e-9`
dead band) exceeds its available stock by more than the `1e-6` tolerance, the
whole update is rejected with no stock mutation at all.  (2) On success, a
key whose aggregated quantity dropped gains back exactly the difference, a
key whose aggregated quantity grew (and whose delta does not exceed the
exactly-available stock) loses exactly the difference, keys inside the dead
band and keys outside the bill are unchanged. -/
theorem update_loaded_bill_delta_spec (t : StockTable) (oldP newP : List SaleItem) :
    ((∃ k ∈ updKeys oldP newP, eps9 < deltaFor oldP newP k ∧
        get_available_stock t (dispName oldP newP k) + eps6 < deltaFor oldP newP k) →
      update_bill_stock t oldP newP = none) ∧
    (∀ t', update_bill_stock t oldP newP = some t' →
      (∀ k, k ∉ updKeys oldP newP → stockQtyAt t' k = stockQtyAt t k) ∧
      (∀ k ∈ updKeys oldP newP, k ≠ "" →
        (deltaFor oldP newP k < -eps9 →
          stockQtyAt t' k = stockQtyAt t k - deltaFor oldP newP k) ∧
        (eps9 < deltaFor oldP newP k → deltaFor oldP newP k ≤ stockQtyAt t k →
          stockQtyAt t' k = stockQtyAt t k - deltaFor oldP newP k) ∧
        (|deltaFor oldP newP k| ≤ eps9 → stockQtyAt t' k = stockQtyAt t k))) := by
  have heps9 : (0 : ℚ) < eps9 := by norm_num [eps9]
  constructor
  · intro h
    unfold update_bill_stock
    rw [if_pos h]
  · intro t' ht'
    unfold update_bill_stock at ht'
    by_cases hval : ∃ k ∈ updKeys oldP newP, eps9 < deltaFor oldP newP k ∧
        get_available_stock t (dispName oldP newP k) + eps6 < deltaFor oldP newP k
    · rw [if_pos hval] at ht'
      exact absurd ht' (by simp)
    · rw [if_neg hval] at ht'
      have ht'' : t' = reduce_stock_in_db
          (increase_stock_in_db t (incListOf oldP newP)) (redListOf oldP newP) :=
        (Option.some.inj ht').symm
      have hnd : (updKeys oldP newP).Nodup := List.nodup_dedup _
      have hsumInc : ∀ k, sumKeyG k (incListOf oldP newP) =
          if k ∈ updKeys oldP newP then
            (match (fun k =>
              let d := deltaFor oldP newP k
              if |d| ≤ eps9 then none
              else if d < 0 then some (⟨dispName oldP newP k, -d, 0⟩ : SaleItem)
              else none) k with
            | some i => if itemActive i then i.qty else 0
            | none => 0)
          else 0 := by
        intro k
        exact sumKeyG_filterMap_keys (incListOf_keys oldP newP) hnd
      have hsumRed : ∀ k, sumKeyG k (redListOf oldP newP) =
          if k ∈ updKeys oldP newP then
            (match (fun k =>
              let d := deltaFor oldP newP k
              if |d| ≤ eps9 then none
              else if d < 0 then none
              else some (⟨dispName oldP newP k, d, 0⟩ : SaleItem)) k with
            | some i => if itemActive i then i.qty else 0
            | none => 0)
          else 0 := by
        intro k
        exact sumKeyG_filterMap_keys (redListOf_keys oldP newP) hnd
      constructor
      · intro k hk
        have hInc0 : sumKeyG k (incListOf oldP newP) = 0 := by
          rw [hsumInc k, if_neg hk]
        have hRed0 : sumKeyG k (redListOf oldP newP) = 0 := by
          rw [hsumRed k, if_neg hk]
        rw [ht'', stockQtyAt_reduce_all_zero _ _ _ hRed0,
          stockQtyAt_increase_all_g, hInc0, add_zero]
      · intro k hk hkne
        have hdisp := dispName_active oldP newP k hk hkne
        refine ⟨?_, ?_, ?_⟩
        · -- delta < -eps9 : increase by -delta
          intro hd
          have hdneg : deltaFor oldP newP k < 0 := by linarith
          have habs : ¬ |deltaFor oldP newP k| ≤ eps9 := by
            rw [abs_of_neg hdneg]
            push_neg
            linarith
          have hInc : sumKeyG k (incListOf oldP newP) = -deltaFor oldP newP k := by
            rw [hsumInc k, if_pos hk]
            simp only [if_neg habs, if_pos hdneg]
            rw [if_pos (show itemActive ⟨dispName oldP newP k, -deltaFor oldP newP k, 0⟩
              from by
                unfold itemActive
                push_neg
                refine ⟨hdisp, ?_⟩
                show (0 : ℚ) < -deltaFor oldP newP k
                linarith)]
          have hRed0 : sumKeyG k (redListOf oldP newP) = 0 := by
            rw [hsumRed k, if_pos hk]
            simp only [if_neg habs, if_pos hdneg]
          rw [ht'', stockQtyAt_reduce_all_zero _ _ _ hRed0,
            stockQtyAt_increase_all_g, hInc]
          ring
        · -- eps9 < delta ≤ available : reduce by delta
          intro hd havail
          have hdpos : ¬ deltaFor oldP newP k < 0 := by push_neg; linarith
          have habs : ¬ |deltaFor oldP newP k| ≤ eps9 := by
            rw [abs_of_pos (by linarith)]
            push_neg
            linarith
          have hInc0 : sumKeyG k (incListOf oldP newP) = 0 := by
            rw [hsumInc k, if_pos hk]
            simp only [if_neg habs, if_neg hdpos]
          have hRed : sumKeyG k (redListOf oldP newP) = deltaFor oldP newP k := by
            rw [hsumRed k, if_pos hk]
            simp only [if_neg habs, if_neg hdpos]
            rw [if_pos (show itemActive ⟨dispName oldP newP k, deltaFor oldP newP k, 0⟩
              from by
                unfold itemActive
                push_neg
                refine ⟨hdisp, ?_⟩
                show (0 : ℚ) < deltaFor oldP newP k
                linarith)]
          have hmid : stockQtyAt (increase_stock_in_db t (incListOf oldP newP)) k =
              stockQtyAt t k := by
            rw [stockQtyAt_increase_all_g, hInc0, add_zero]
          rw [ht'', stockQtyAt_reduce_all_g _ _ _ (by rw [hmid, hRed]; exact havail),
            hmid, hRed]
        · -- |delta| ≤ eps9 : unchanged
          intro hd
          have hInc0 : sumKeyG k (incListOf oldP newP) = 0 := by
            rw [hsumInc k, if_pos hk]
            simp only [if_pos hd]
          have hRed0 : sumKeyG k (redListOf oldP newP) = 0 := by
            rw [hsumRed k, if_pos hk]
            simp only [if_pos hd]
          rw [ht'', stockQtyAt_reduce_all_zero _ _ _ hRed0,
            stockQtyAt_increase_all_g, hInc0, add_zero]

/-- Witness for `update_loaded_bill_delta_spec`: editing a bill from
`Urea 10` to `Urea 4, DAP 3` over stock `Urea=10, DAP=5` succeeds and moves
stock to `Urea=16, DAP=2`; the same edit over stock `DAP=1` is rejected. -/
theorem update_loaded_bill_delta_spec_witness :
    (∃ t', update_bill_stock [("Urea", 10), ("DAP", 5)] [⟨"Urea", 10, 20⟩]
        [⟨"Urea", 4, 20⟩, ⟨"DAP", 3, 30⟩] = some t' ∧
      stockQtyAt t' "urea" = 16 ∧ stockQtyAt t' "dap" = 2) ∧
    update_bill_stock [("Urea", 10), ("DAP", 1)] [⟨"Urea", 10, 20⟩]
        [⟨"Urea", 4, 20⟩, ⟨"DAP", 3, 30⟩] = none := by
  have hkeys : updKeys [(⟨"Urea", 10, 20⟩ : SaleItem)]
      [⟨"Urea", 4, 20⟩, ⟨"DAP", 3, 30⟩] = ["urea", "dap"] := rfl
  have hdu : deltaFor [(⟨"Urea", 10, 20⟩ : SaleItem)]
      [⟨"Urea", 4, 20⟩, ⟨"DAP", 3, 30⟩] "urea" = -6 := by
    have h1 : sumKey "urea" [(⟨"Urea", 4, 20⟩ : SaleItem), ⟨"DAP", 3, 30⟩] = 4 := by
      have e1 : keyOf ⟨"Urea", 4, 20⟩ = "urea" := rfl
      have e2 : keyOf ⟨"DAP", 3, 30⟩ = "dap" := rfl
      rw [sumKey_cons, sumKey_cons, sumKey_nil, e1, e2]
      simp
    have h2 : sumKey "urea" [(⟨"Urea", 10, 20⟩ : SaleItem)] = 10 := by
      have e1 : keyOf ⟨"Urea", 10, 20⟩ = "urea" := rfl
      rw [sumKey_cons, sumKey_nil, e1]
      simp
    unfold deltaFor
    rw [h1, h2]
    norm_num
  have hdd : deltaFor [(⟨"Urea", 10, 20⟩ : SaleItem)]
      [⟨"Urea", 4, 20⟩, ⟨"DAP", 3, 30⟩] "dap" = 3 := by
    have h1 : sumKey "dap" [(⟨"Urea", 4, 20⟩ : SaleItem), ⟨"DAP", 3, 30⟩] = 3 := by
      have e1 : keyOf ⟨"Urea", 4, 20⟩ = "urea" := rfl
      have e2 : keyOf ⟨"DAP", 3, 30⟩ = "dap" := rfl
      rw [sumKey_cons, sumKey_cons, sumKey_nil, e1, e2]
      simp
    have h2 : sumKey "dap" [(⟨"Urea", 10, 20⟩ : SaleItem)] = 0 := by
      have e1 : keyOf ⟨"Urea", 10, 20⟩ = "urea" := rfl
      rw [sumKey_cons, sumKey_nil, e1]
      simp
    unfold deltaFor
    rw [h1, h2]
    norm_num
  have hdisp : dispName [(⟨"Urea", 10, 20⟩ : SaleItem)]
      [⟨"Urea", 4, 20⟩, ⟨"DAP", 3, 30⟩] "dap" = "DAP" := rfl
  constructor
  · have hval : ¬∃ k ∈ updKeys [(⟨"Urea", 10, 20⟩ : SaleItem)]
        [⟨"Urea", 4, 20⟩, ⟨"DAP", 3, 30⟩],
        eps9 < deltaFor [(⟨"Urea", 10, 20⟩ : SaleItem)]
            [⟨"Urea", 4, 20⟩, ⟨"DAP", 3, 30⟩] k ∧
          get_available_stock [("Urea", 10), ("DAP", 5)]
              (dispName [(⟨"Urea", 10, 20⟩ : SaleItem)]
                [⟨"Urea", 4, 20⟩, ⟨"DAP", 3, 30⟩] k) + eps6 <
            deltaFor [(⟨"Urea", 10, 20⟩ : SaleItem)]
              [⟨"Urea", 4, 20⟩, ⟨"DAP", 3, 30⟩] k := by
      rintro ⟨k, hk, h1, h2⟩
      rw [hkeys] at hk
      simp only [List.mem_cons, List.not_mem_nil, or_false] at hk
      rcases hk with rfl | rfl
      · rw [hdu] at h1
        norm_num [eps9] at h1
      · rw [hdd] at h2
        have havail : get_available_stock [("Urea", (10 : ℚ)), ("DAP", 5)] "DAP" = 5 := rfl
        rw [hdisp, havail] at h2
        norm_num [eps6] at h2
    have hsome : update_bill_stock [("Urea", 10), ("DAP", 5)] [⟨"Urea", 10, 20⟩]
        [⟨"Urea", 4, 20⟩, ⟨"DAP", 3, 30⟩] =
        some (reduce_stock_in_db
          (increase_stock_in_db [("Urea", 10), ("DAP", 5)]
            (incListOf [⟨"Urea", 10, 20⟩] [⟨"Urea", 4, 20⟩, ⟨"DAP", 3, 30⟩]))
          (redListOf [⟨"Urea", 10, 20⟩] [⟨"Urea", 4, 20⟩, ⟨"DAP", 3, 30⟩])) := by
      unfold update_bill_stock
      rw [if_neg hval]
    refine ⟨_, hsome, ?_, ?_⟩
    · have h := (((update_loaded_bill_delta_spec [("Urea", 10), ("DAP", 5)]
        [⟨"Urea", 10, 20⟩] [⟨"Urea", 4, 20⟩, ⟨"DAP", 3, 30⟩]).2 _ hsome).2
        "urea" (by rw [hkeys]; simp) (by simp)).1
        (by rw [hdu]; norm_num [eps9])
      rw [hdu] at h
      have h0 : stockQtyAt [("Urea", (10 : ℚ)), ("DAP", 5)] "urea" = 10 := rfl
      rw [h0] at h
      rw [h]
      norm_num
    · have h := (((update_loaded_bill_delta_spec [("Urea", 10), ("DAP", 5)]
        [⟨"Urea", 10, 20⟩] [⟨"Urea", 4, 20⟩, ⟨"DAP", 3, 30⟩]).2 _ hsome).2
        "dap" (by rw [hkeys]; simp) (by simp)).2.1
        (by rw [hdd]; norm_num [eps9])
        (by
          rw [hdd]
          have h0 : stockQtyAt [("Urea", (10 : ℚ)), ("DAP", 5)] "dap" = 5 := rfl
          rw [h0]
          norm_num)
      rw [hdd] at h
      have h0 : stockQtyAt [("Urea", (10 : ℚ)), ("DAP", 5)] "dap" = 5 := rfl
      rw [h0] at h
      rw [h]
      norm_num
  · apply (update_loaded_bill_delta_spec [("Urea", 10), ("DAP", 1)]
      [⟨"Urea", 10, 20⟩] [⟨"Urea", 4, 20⟩, ⟨"DAP", 3, 30⟩]).1
    refine ⟨"dap", by rw [hkeys]; simp, ?_, ?_⟩
    · rw [hdd]
      norm_num [eps9]
    · rw [hdd, hdisp]
      have havail : get_available_stock [("Urea", (10 : ℚ)), ("DAP", 1)] "DAP" = 1 := rfl
      rw [havail]
      norm_num [eps6]

/-! ## C3 / C6: purchase invoice save / delete (purchases.py) -/

/-- A product line of a purchase invoice, as entered in the purchase form:
`[Product, Qty, Unit, MRP, GST, Expiry, Category]`. -/
structure PurchItem where
  pname : String
  qty : ℚ
  unit : String
  mrp : ℚ
  gst : String
  expiry : String
  category : String
deriving DecidableEq, Repr

/-- A row of the `purchases` SQLite table / the `Invoices` Excel sheet:
`(invoice_no, date, vendor, product_name, qty, unit, mrp, gst, expiry,
category, entry_by)`. -/
structure PurchRow where
  invoice_no : String
  date : String
  vendor : String
  product : String
  qty : ℚ
  unit : String
  mrp : ℚ
  gst : String
  expiry : String
  category : String
  entry_by : String
deriving DecidableEq, Repr

/-- The primary key of the `purchases` table:
`(invoice_no, product_name, unit, mrp, gst, expiry)`. -/
def purchPK (r : PurchRow) : String × String × String × ℚ × String × String :=
  (r.invoice_no, r.product, r.unit, r.mrp, r.gst, r.expiry)

/-- `insert_purchase` (purchases.py:95): `INSERT OR REPLACE` — the
conflicting row (same primary key) is removed and the new row appended. -/
def insert_purchase (db : List PurchRow) (r : PurchRow) : List PurchRow :=
  (db.filter (fun x => !(purchPK x == purchPK r))) ++ [r]

/-- `delete_invoice_from_db` (purchases.py:107): remove every row of the
invoice. -/
def delete_invoice_from_db (db : List PurchRow) (inv : String) : List PurchRow :=
  db.filter (fun r => !(r.invoice_no == inv))

/-- State touched by the purchase-invoice handlers: the relational
`purchases` table, the `Invoices` spreadsheet rows, and the stock ledger. -/
structure PurchState where
  db : List PurchRow
  excel : List PurchRow
  stock : StockTable
deriving Repr

/-- Build a row of the invoice being saved. -/
def mkPurchRow (invNo dateStr vendor entryBy : String) (i : PurchItem) : PurchRow :=
  ⟨invNo, dateStr, vendor, i.pname, i.qty, i.unit, i.mrp, i.gst, i.expiry,
    i.category, entryBy⟩

/-- `SELECT product_name, qty FROM purchases WHERE invoice_no=?`
(the `prev_products` capture of purchases.py:862/973). -/
def prevProductsOf (db : List PurchRow) (inv : String) : List (String × ℚ) :=
  (db.filter (fun r => r.invoice_no == inv)).map (fun r => (r.product, r.qty))

/-- Subtract each captured `(product, qty)` pair via `inventory_subtract`. -/
def subtractAll (t : StockTable) (ps : List (String × ℚ)) : StockTable :=
  ps.foldl (fun t' pq => inventory_subtract t' pq.1 pq.2) t

/-- Add each saved line item via `inventory_add`. -/
def addAllItems (t : StockTable) (items : List PurchItem) : StockTable :=
  items.foldl (fun t' i => inventory_add t' i.pname i.qty) t

/-- `PurchaseWidget.handle_save_invoice` (purchases.py:839-921), state part.
Validation requires a non-empty invoice number and vendor and at least one
product.  When editing an existing invoice (`is_editing` with a current
invoice number): capture its previous `(product, qty)` rows from the DB,
delete its rows from the spreadsheet and the DB, and `inventory_subtract`
each previous quantity.  Then append the new rows to both backends and
`inventory_add` each new quantity.  (The `VendorWise` sheet mirrors the
`Invoices` sheet and is not modelled separately.) -/
def handle_save_invoice (st : PurchState) (isEditing : Bool)
    (currentInvoiceNo : Option String) (invNo dateStr vendor entryBy : String)
    (items : List PurchItem) : PurchState :=
  if invNo = "" ∨ vendor = "" ∨ items = [] then st
  else
    let cleaned :=
      match isEditing, currentInvoiceNo with
      | true, some cino =>
        let prev := prevProductsOf st.db cino
        PurchState.mk (delete_invoice_from_db st.db cino)
          (st.excel.filter (fun r => !(r.invoice_no == cino)))
          (subtractAll st.stock prev)
      | _, _ => st
    let rows := items.map (mkPurchRow invNo dateStr vendor entryBy)
    { db := rows.foldl insert_purchase cleaned.db,
      excel := cleaned.excel ++ rows,
      stock := addAllItems cleaned.stock items }

/-- `PurchaseWidget.handle_delete_invoice` (purchases.py:945-1016), state
part (after the admin-role check and the confirmation dialog): capture the
invoice's `(product, qty)` rows from the DB, delete its rows from the
spreadsheet and the DB, then `inventory_subtract` each captured quantity. -/
def handle_delete_invoice (st : PurchState) (invoiceNo : String) : PurchState :=
  if invoiceNo = "" then st
  else
    let prev := prevProductsOf st.db invoiceNo
    { db := delete_invoice_from_db st.db invoiceNo,
      excel := st.excel.filter (fun r => !(r.invoice_no == invoiceNo)),
      stock := subtractAll st.stock prev }

/-! ### exact-match per-product lemmas for the purchases-side ledger -/

theorem stockSelectExact_cons (x : String × ℚ) (l : StockTable) (p : String) :
    stockSelectExact (x :: l) p =
      if x.1 = p then some x.2 else stockSelectExact l p := by
  by_cases h : x.1 = p
  · rw [if_pos h]
    unfold stockSelectExact
    rw [List.find?_cons_of_pos _ (by simpa using h)]
    rfl
  · rw [if_neg h]
    unfold stockSelectExact
    rw [List.find?_cons_of_neg _ (by simpa using h)]

theorem stockQtyExact_cons (x : String × ℚ) (l : StockTable) (p : String) :
    stockQtyExact (x :: l) p = if x.1 = p then x.2 else stockQtyExact l p := by
  unfold stockQtyExact
  rw [stockSelectExact_cons]
  by_cases h : x.1 = p
  · simp [h]
  · simp [h]

theorem stockUpdateExact_cons (x : String × ℚ) (l : StockTable) (p : String) (v : ℚ) :
    stockUpdateExact (x :: l) p v =
      (if x.1 = p then (x.1, v) else x) :: stockUpdateExact l p v := rfl

theorem stockQtyExact_stockUpdateExact_ne {t : StockTable} {p : String} {v : ℚ}
    {p' : String} (h : ¬ p = p') :
    stockQtyExact (stockUpdateExact t p v) p' = stockQtyExact t p' := by
  induction t with
  | nil => rfl
  | cons r tl ih =>
    rw [stockUpdateExact_cons]
    by_cases hr : r.1 = p
    · rw [if_pos hr, stockQtyExact_cons, stockQtyExact_cons]
      have hne : ¬ r.1 = p' := by rw [hr]; exact h
      simp only [hne, if_false]
      exact ih
    · rw [if_neg hr, stockQtyExact_cons, stockQtyExact_cons]
      by_cases hp : r.1 = p'
      · simp [hp]
      · simp only [hp, if_false]
        exact ih

theorem stockQtyExact_stockUpdateExact_self (t : StockTable) (p : String) (v : ℚ) :
    stockQtyExact (stockUpdateExact t p v) p =
      match stockSelectExact t p with
      | some _ => v
      | none => 0 := by
  induction t with
  | nil => rfl
  | cons r tl ih =>
    rw [stockUpdateExact_cons, stockSelectExact_cons, stockQtyExact_cons]
    by_cases hr : r.1 = p
    · simp [hr]
    · simp only [hr, if_false]
      exact ih

theorem stockSelectExact_none_qty {t : StockTable} {p : String}
    (h : stockSelectExact t p = none) : stockQtyExact t p = 0 := by
  unfold stockQtyExact
  rw [h]

theorem stockSelectExact_some_qty {t : StockTable} {p : String} {cur : ℚ}
    (h : stockSelectExact t p = some cur) : stockQtyExact t p = cur := by
  unfold stockQtyExact
  rw [h]

/-- Per-product effect of `inventory_subtract` at the subtracted name
(for a non-negative quantity, absent rows included). -/
theorem stockQtyExact_inventory_subtract_self (t : StockTable) (p : String)
    (q : ℚ) (hq : 0 ≤ q) :
    stockQtyExact (inventory_subtract t p q) p =
      max 0 (stockQtyExact t p - q) := by
  unfold inventory_subtract
  cases hsel : stockSelectExact t p with
  | some cur =>
    rw [stockQtyExact_stockUpdateExact_self, hsel, stockSelectExact_some_qty hsel]
  | none =>
    rw [stockSelectExact_none_qty hsel]
    have : (0 : ℚ) - q ≤ 0 := by linarith
    rw [max_eq_left this]

/-- `inventory_subtract` leaves every other product name unchanged. -/
theorem stockQtyExact_inventory_subtract_ne (t : StockTable) (p p' : String)
    (q : ℚ) (h : ¬ p = p') :
    stockQtyExact (inventory_subtract t p q) p' = stockQtyExact t p' := by
  unfold inventory_subtract
  cases hsel : stockSelectExact t p with
  | some cur => exact stockQtyExact_stockUpdateExact_ne h
  | none => rfl

theorem stockQtyExact_append_single (t : StockTable) (nm : String) (q : ℚ)
    (p : String) :
    stockQtyExact (t ++ [(nm, q)]) p =
      match stockSelectExact t p with
      | some cur => cur
      | none => if nm = p then q else 0 := by
  unfold stockQtyExact stockSelectExact
  rw [List.find?_append]
  cases h : t.find? (fun r => r.1 == p) with
  | some r => simp
  | none =>
    by_cases hnm : nm = p
    · rw [List.find?_cons_of_pos _ (by simpa using hnm)]
      simp [hnm]
    · rw [List.find?_cons_of_neg _ (by simpa using hnm)]
      simp [hnm]

/-- Per-product effect of `inventory_add` at the added name. -/
theorem stockQtyExact_inventory_add_self (t : StockTable) (p : String) (q : ℚ) :
    stockQtyExact (inventory_add t p q) p = stockQtyExact t p + q := by
  unfold inventory_add
  cases hsel : stockSelectExact t p with
  | some cur =>
    rw [stockQtyExact_stockUpdateExact_self, hsel, stockSelectExact_some_qty hsel]
  | none =>
    rw [stockSelectExact_none_qty hsel, stockQtyExact_append_single, hsel]
    simp

/-- `inventory_add` leaves every other product name unchanged. -/
theorem stockQtyExact_inventory_add_ne (t : StockTable) (p p' : String) (q : ℚ)
    (h : ¬ p = p') :
    stockQtyExact (inventory_add t p q) p' = stockQtyExact t p' := by
  unfold inventory_add
  cases hsel : stockSelectExact t p with
  | some cur => exact stockQtyExact_stockUpdateExact_ne h
  | none =>
    rw [stockQtyExact_append_single]
    cases hfind : stockSelectExact t p' with
    | some cur =>
      show cur = stockQtyExact t p'
      exact (stockSelectExact_some_qty hfind).symm
    | none =>
      show (if p = p' then q else 0) = stockQtyExact t p'
      rw [stockSelectExact_none_qty hfind]
      simp [h]

/-- Claim C3 (counterexample): fresh-saving invoice "INV-1" with
`Urea 45kg` qty 100 and then re-saving it (edit) with qty 120 leaves the
ledger at 120, not 220: `handle_save_invoice` captures the invoice's
previous DB quantities and `inventory_subtract`s them before re-adding
(purchases.py:858-886), so the prior 100 IS subtracted. -/
theorem resave_invoice_counterexample :
    stockQtyExact
      ((handle_save_invoice
        (handle_save_invoice ⟨[], [], []⟩ false none "INV-1" "01-05-2025"
          "AgriVendor" "admin" [⟨"Urea 45kg", 100, "kg", 500, "5", "", "Fertilizer"⟩])
        true (some "INV-1") "INV-1" "01-05-2025" "AgriVendor" "admin"
        [⟨"Urea 45kg", 120, "kg", 500, "5", "", "Fertilizer"⟩]).stock)
      "Urea 45kg" = 120 ∧ (120 : ℚ) ≠ 220 := by
  constructor
  · have h : stockQtyExact
        ((handle_save_invoice
          (handle_save_invoice ⟨[], [], []⟩ false none "INV-1" "01-05-2025"
            "AgriVendor" "admin" [⟨"Urea 45kg", 100, "kg", 500, "5", "", "Fertilizer"⟩])
          true (some "INV-1") "INV-1" "01-05-2025" "AgriVendor" "admin"
          [⟨"Urea 45kg", 120, "kg", 500, "5", "", "Fertilizer"⟩]).stock)
        "Urea 45kg" = max 0 ((100 : ℚ) - 100) + 120 := rfl
    rw [h]
    norm_num
  · norm_num

/-- Claim C3 (amended): re-saving (editing) a purchase invoice whose stored
DB line items are a single `(p, q1)` row first subtracts `q1` (floored at 0)
and then adds the new quantity: the ledger for `p` ends at
`max 0 (avail - q1) + q2`, hence at `q2` (not `q1 + q2`) when the available
quantity came entirely from this invoice. -/
theorem resave_invoice_stock_spec (st : PurchState) (cino invNo d v s : String)
    (i2 : PurchItem) (p : String) (q1 : ℚ)
    (hval : ¬ (invNo = "" ∨ v = "" ∨ ([i2] : List PurchItem) = []))
    (hprev : prevProductsOf st.db cino = [(p, q1)])
    (hp2 : i2.pname = p) (hq1 : 0 ≤ q1) :
    stockQtyExact ((handle_save_invoice st true (some cino) invNo d v s [i2]).stock) p =
      max 0 (stockQtyExact st.stock p - q1) + i2.qty := by
  unfold handle_save_invoice
  rw [if_neg hval]
  show stockQtyExact
      (addAllItems (subtractAll st.stock (prevProductsOf st.db cino)) [i2]) p = _
  rw [hprev]
  show stockQtyExact
      (inventory_add (inventory_subtract st.stock p q1) i2.pname i2.qty) p = _
  rw [hp2, stockQtyExact_inventory_add_self]
  rw [stockQtyExact_inventory_subtract_self st.stock p q1 hq1]

/-- Witness for `resave_invoice_stock_spec`: invoice "INV-1" previously held
`Urea 45kg` qty 100 with 100 available; re-saving with qty 120 ends at 120. -/
theorem resave_invoice_stock_spec_witness :
    stockQtyExact
      ((handle_save_invoice
        ⟨[⟨"INV-1", "01-05-2025", "AgriVendor", "Urea 45kg", 100, "kg", 500, "5", "",
            "Fertilizer", "admin"⟩],
          [⟨"INV-1", "01-05-2025", "AgriVendor", "Urea 45kg", 100, "kg", 500, "5", "",
            "Fertilizer", "admin"⟩],
          [("Urea 45kg", 100)]⟩
        true (some "INV-1") "INV-1" "01-05-2025" "AgriVendor" "admin"
        [⟨"Urea 45kg", 120, "kg", 500, "5", "", "Fertilizer"⟩]).stock)
      "Urea 45kg" = 120 := by
  have h := resave_invoice_stock_spec
    ⟨[⟨"INV-1", "01-05-2025", "AgriVendor", "Urea 45kg", 100, "kg", 500, "5", "",
        "Fertilizer", "admin"⟩],
      [⟨"INV-1", "01-05-2025", "AgriVendor", "Urea 45kg", 100, "kg", 500, "5", "",
        "Fertilizer", "admin"⟩],
      [("Urea 45kg", 100)]⟩
    "INV-1" "INV-1" "01-05-2025" "AgriVendor" "admin"
    ⟨"Urea 45kg", 120, "kg", 500, "5", "", "Fertilizer"⟩ "Urea 45kg" 100
    (by
      push_neg
      refine ⟨by simp, by simp, by simp⟩)
    rfl rfl (by norm_num)
  rw [h]
  have h0 : stockQtyExact
      [("Urea 45kg", (100 : ℚ))] "Urea 45kg" = 100 := rfl
  norm_num [h0]

/-- Claim C6 (counterexample): deleting invoice "INV-1" (sole line item
`Pesto` qty 10, ledger at 10) drives the ledger for `Pesto` to 0, not
leaving it unchanged: `handle_delete_invoice` subtracts the deleted
invoice's quantities (purchases.py:1002-1007). -/
theorem delete_invoice_counterexample :
    stockQtyExact
      ((handle_delete_invoice
        ⟨[⟨"INV-1", "01-05-2025", "V", "Pesto", 10, "l", 300, "12", "", "Pesticide",
            "admin"⟩],
          [⟨"INV-1", "01-05-2025", "V", "Pesto", 10, "l", 300, "12", "", "Pesticide",
            "admin"⟩],
          [("Pesto", 10)]⟩ "INV-1").stock) "Pesto" = 0 ∧
    stockQtyExact [("Pesto", (10 : ℚ))] "Pesto" = 10 ∧ (0 : ℚ) ≠ 10 := by
  refine ⟨?_, rfl, by norm_num⟩
  have h : stockQtyExact
      ((handle_delete_invoice
        ⟨[⟨"INV-1", "01-05-2025", "V", "Pesto", 10, "l", 300, "12", "", "Pesticide",
            "admin"⟩],
          [⟨"INV-1", "01-05-2025", "V", "Pesto", 10, "l", 300, "12", "", "Pesticide",
            "admin"⟩],
          [("Pesto", 10)]⟩ "INV-1").stock) "Pesto" = max 0 ((10 : ℚ) - 10) := rfl
  rw [h]
  norm_num

/-- Claim C6 (amended): deleting a purchase invoice removes all of its line
items from the relational store and the spreadsheet AND reverses its stock
additions: each of the invoice's DB-recorded quantities is subtracted from
the ledger (floored at zero); other products are untouched. -/
theorem handle_delete_invoice_spec (st : PurchState) (inv : String)
    (hinv : inv ≠ "") (p : String) (q : ℚ) (hq : 0 ≤ q)
    (hprev : prevProductsOf st.db inv = [(p, q)]) :
    (∀ r ∈ (handle_delete_invoice st inv).db, r.invoice_no ≠ inv) ∧
    (∀ r ∈ (handle_delete_invoice st inv).excel, r.invoice_no ≠ inv) ∧
    stockQtyExact (handle_delete_invoice st inv).stock p =
      max 0 (stockQtyExact st.stock p - q) ∧
    (∀ p', p' ≠ p →
      stockQtyExact (handle_delete_invoice st inv).stock p' =
        stockQtyExact st.stock p') := by
  unfold handle_delete_invoice
  rw [if_neg hinv]
  refine ⟨?_, ?_, ?_, ?_⟩
  · intro r hr
    have := (List.mem_filter.mp hr).2
    simpa using this
  · intro r hr
    have := (List.mem_filter.mp hr).2
    simpa using this
  · show stockQtyExact (subtractAll st.stock (prevProductsOf st.db inv)) p = _
    rw [hprev]
    show stockQtyExact (inventory_subtract st.stock p q) p = _
    exact stockQtyExact_inventory_subtract_self st.stock p q hq
  · intro p' hp'
    show stockQtyExact (subtractAll st.stock (prevProductsOf st.db inv)) p' = _
    rw [hprev]
    show stockQtyExact (inventory_subtract st.stock p q) p' = _
    exact stockQtyExact_inventory_subtract_ne st.stock p p' q (fun h => hp' h.symm)

/-- Witness for `handle_delete_invoice_spec` at the concrete one-line-item
invoice state (ledger `Pesto=10`, `Seed=7`). -/
theorem handle_delete_invoice_spec_witness :
    (∀ r ∈ (handle_delete_invoice
        ⟨[⟨"INV-1", "01-05-2025", "V", "Pesto", 10, "l", 300, "12", "", "Pesticide",
            "admin"⟩],
          [⟨"INV-1", "01-05-2025", "V", "Pesto", 10, "l", 300, "12", "", "Pesticide",
            "admin"⟩],
          [("Pesto", 10), ("Seed", 7)]⟩ "INV-1").db, r.invoice_no ≠ "INV-1") ∧
    stockQtyExact (handle_delete_invoice
        ⟨[⟨"INV-1", "01-05-2025", "V", "Pesto", 10, "l", 300, "12", "", "Pesticide",
            "admin"⟩],
          [⟨"INV-1", "01-05-2025", "V", "Pesto", 10, "l", 300, "12", "", "Pesticide",
            "admin"⟩],
          [("Pesto", 10), ("Seed", 7)]⟩ "INV-1").stock "Pesto" =
      max 0 (stockQtyExact [("Pesto", (10 : ℚ)), ("Seed", 7)] "Pesto" - 10) ∧
    stockQtyExact (handle_delete_invoice
        ⟨[⟨"INV-1", "01-05-2025", "V", "Pesto", 10, "l", 300, "12", "", "Pesticide",
            "admin"⟩],
          [⟨"INV-1", "01-05-2025", "V", "Pesto", 10, "l", 300, "12", "", "Pesticide",
            "admin"⟩],
          [("Pesto", 10), ("Seed", 7)]⟩ "INV-1").stock "Seed" =
      stockQtyExact [("Pesto", (10 : ℚ)), ("Seed", 7)] "Seed" := by
  have h := handle_delete_invoice_spec
    ⟨[⟨"INV-1", "01-05-2025", "V", "Pesto", 10, "l", 300, "12", "", "Pesticide",
        "admin"⟩],
      [⟨"INV-1", "01-05-2025", "V", "Pesto", 10, "l", 300, "12", "", "Pesticide",
        "admin"⟩],
      [("Pesto", 10), ("Seed", 7)]⟩ "INV-1"
    (by simp) "Pesto" 10 (by norm_num) rfl
  exact ⟨h.1, h.2.2.1, h.2.2.2 "Seed" (by simp)⟩

/-! ## C4: bill save / delete and the product-details string round trip -/

/-- Python `str.strip()` over a character list. -/
def trimChars (cs : List Char) : List Char :=
  ((cs.dropWhile Char.isWhitespace).reverse.dropWhile Char.isWhitespace).reverse

/-- Value of a digit string. -/
def digitsVal (cs : List Char) : ℕ :=
  cs.foldl (fun n c => 10 * n + (c.toNat - '0'.toNat)) 0

/-- Python `float()` restricted to the plain decimal numerals this program
produces and stores in `product_details` (optional sign, digits, optional
fractional part); other inputs fail, as `float()` raising does. -/
def parseDec (cs0 : List Char) : Option ℚ :=
  let cs1 := trimChars cs0
  let sc : ℚ × List Char :=
    match cs1 with
    | '-' :: rest => (-1, rest)
    | '+' :: rest => (1, rest)
    | _ => (1, cs1)
  match splitPred (· == '.') sc.2 with
  | [a] =>
    if a ≠ [] ∧ a.all Char.isDigit then some (sc.1 * (digitsVal a : ℚ)) else none
  | [a, b] =>
    if (a ≠ [] ∨ b ≠ []) ∧ a.all Char.isDigit ∧ b.all Char.isDigit then
      some (sc.1 * ((digitsVal a : ℚ) + (digitsVal b : ℚ) / (10 : ℚ) ^ b.length))
    else none
  | _ => none

/-- The `products_str` a bill save writes (sales.py:1024):
`"; ".join(f"{name}|{qty}|{price:.2f}")`.  The numeric renderings of
Python's `str(float)` and `f"{...:.2f}"` are abstracted as `fmtQ`/`fmtP`. -/
def mkProductsStr (fmtQ fmtP : ℚ → String) (items : List SaleItem) : String :=
  String.intercalate "; "
    (items.map (fun i => i.name ++ "|" ++ fmtQ i.qty ++ "|" ++ fmtP i.price))

/-- `parse_product_details_str` (sales.py:1207): split on `;`, strip, drop
empties; each piece must split on `|` into exactly three parts with numeric
qty and price, otherwise the piece is silently skipped. -/
def parse_product_details_str (s : String) : List SaleItem :=
  if s = "" then []
  else
    (((splitPred (· == ';') s.toList).map trimChars).filter (· ≠ [])).filterMap
      (fun item =>
        match splitPred (· == '|') item with
        | [n, q, p] =>
          match parseDec q, parseDec p with
          | some qv, some pv => some ⟨n.asString, qv, pv⟩
          | _, _ => none
        | _ => none)

/-- The stock-relevant part of `save_and_print_bill` (sales.py:1001-1054):
reject when any aggregated per-product requirement exceeds the available
stock beyond the `1e-6` tolerance; otherwise subtract every line item. -/
def save_bill_stock (t : StockTable) (items : List SaleItem) : Option StockTable :=
  if ∃ k ∈ items.map keyOf, get_available_stock t k + eps6 < sumKey k items then
    none
  else some (reduce_stock_in_db t items)

/-- The stock-relevant part of `delete_bill_by_number` (sales.py:1404-1438):
parse the stored `product_details` string and add every parsed item back. -/
def delete_bill_stock (t : StockTable) (products_str : String) : StockTable :=
  increase_stock_in_db t (parse_product_details_str products_str)

/-- `0 ≤` every quantity the sales-side view reports, on a non-negative
table. -/
theorem stockQtyAt_nonneg {t : StockTable} (ht : stockNonNeg t) (k : String) :
    0 ≤ stockQtyAt t k := by
  unfold stockQtyAt
  cases h : t.find? (fun r => lowerStr r.1 == k) with
  | some r => exact ht r (List.mem_of_find?_eq_some h)
  | none => exact le_refl 0

theorem sumKeyG_ne_zero_exists {k : String} {items : List SaleItem}
    (h : sumKeyG k items ≠ 0) :
    ∃ i ∈ items, itemActive i ∧ keyOf i = k := by
  induction items with
  | nil => exact absurd rfl h
  | cons i tl ih =>
    rw [sumKeyG_cons] at h
    by_cases hc : itemActive i ∧ keyOf i = k
    · exact ⟨i, List.mem_cons_self _ _, hc⟩
    · rw [if_neg hc, zero_add] at h
      rcases ih h with ⟨j, hj, hcj⟩
      exact ⟨j, List.mem_cons_of_mem _ hj, hcj⟩

/-- Concrete numeric rendering for the integral quantities of the bills
below: the digits Python's formatting produces for them ("2", "10", ...). -/
def intStr (q : ℚ) : String := toString q.num

/-! ## C5: financial-year carry-forward (purchases.py:134-241) -/

/-- The composite consolidation key of the carry-forward:
`(product, unit, mrp, gst, expiry, category)`. -/
structure PKey where
  pname : String
  unit : String
  mrp : ℚ
  gst : String
  expiry : String
  category : String
deriving DecidableEq, Repr

/-- The composite key of a sheet row (columns 3,5,6,7,8,9). -/
def rowPKey (r : PurchRow) : PKey :=
  ⟨r.product, r.unit, r.mrp, r.gst, r.expiry, r.category⟩

/-- `product_stock_map[key] = product_stock_map.get(key, 0) + qty`
(a Python dict in insertion order). -/
def addToMap (m : List (PKey × ℚ)) (k : PKey) (q : ℚ) : List (PKey × ℚ) :=
  if (m.find? (fun e => e.1 == k)).isSome then
    m.map (fun e => if e.1 = k then (e.1, e.2 + q) else e)
  else m ++ [(k, q)]

/-- Aggregate the previous FY's rows with a non-empty product and positive
quantity by composite key (purchases.py:160-172). -/
def collectStockMap (rows : List PurchRow) : List (PKey × ℚ) :=
  rows.foldl
    (fun m r => if r.product ≠ "" ∧ 0 < r.qty then addToMap m (rowPKey r) r.qty else m)
    []

/-- The composite keys of the destination's existing "Opening Stock" rows
(purchases.py:211-216). -/
def openingKeys (rows : List PurchRow) : List PKey :=
  rows.filterMap
    (fun r => if r.invoice_no = "Opening Stock" then some (rowPKey r) else none)

/-- A synthetic "Opening Stock" row written for key `k` with summed
quantity `q` (purchases.py:187-199/222-234). -/
def openingRow (dateStr : String) (k : PKey) (q : ℚ) : PurchRow :=
  ⟨"Opening Stock", dateStr, "", k.pname, q, k.unit, k.mrp, k.gst,
    (if k.expiry = "" then "" else k.expiry),
    (if k.category = "" then "" else k.category), "carry_forward"⟩

/-- The write phase of the carry-forward on the target sheet: create the
sheet from the aggregated map when the file is absent (purchases.py:179-202),
else append only the keys not already present as "Opening Stock" rows
(purchases.py:204-241). -/
def carryForwardWrite (dateStr : String) (m : List (PKey × ℚ))
    (dest : Option (List PurchRow)) : Option (List PurchRow) :=
  match dest with
  | none => some (m.map (fun kq => openingRow dateStr kq.1 kq.2))
  | some drows =>
    some (drows ++
      ((m.filter (fun kq => decide (kq.1 ∉ openingKeys drows))).map
        (fun kq => openingRow dateStr kq.1 kq.2)))

/-- `carry_forward_purchase_fy_stock` (purchases.py:134-241): no-op before
April, when the previous FY's file is missing, or when it holds nothing
positive; otherwise write the aggregated opening stock.  `prev`/`dest` are
the previous and target FY "Invoices" sheets (`none` = file absent); the
result is the new state of the target sheet. -/
def carry_forward_purchase_fy_stock (month : ℕ) (dateStr : String)
    (prev : Option (List PurchRow)) (dest : Option (List PurchRow)) :
    Option (List PurchRow) :=
  if month < 4 then dest
  else
    match prev with
    | none => dest
    | some prows =>
      let m := collectStockMap prows
      if m = [] then dest
      else carryForwardWrite dateStr m dest

theorem rowPKey_openingRow (dateStr : String) (k : PKey) (q : ℚ) :
    rowPKey (openingRow dateStr k q) = k := by
  cases k with
  | mk pn u mr g ex ca =>
    unfold rowPKey openingRow
    by_cases he : ex = "" <;> by_cases hc : ca = "" <;> simp [he, hc]

theorem openingKeys_append (l₁ l₂ : List PurchRow) :
    openingKeys (l₁ ++ l₂) = openingKeys l₁ ++ openingKeys l₂ :=
  List.filterMap_append _ _ _

theorem openingKeys_map_openingRow (dateStr : String) (m : List (PKey × ℚ)) :
    openingKeys (m.map (fun kq => openingRow dateStr kq.1 kq.2)) =
      m.map (·.1) := by
  induction m with
  | nil => rfl
  | cons kq tl ih =>
    show openingKeys (openingRow dateStr kq.1 kq.2 ::
      tl.map (fun kq => openingRow dateStr kq.1 kq.2)) = kq.1 :: tl.map (·.1)
    unfold openingKeys
    rw [List.filterMap_cons]
    have hif : (if (openingRow dateStr kq.1 kq.2).invoice_no = "Opening Stock" then
        some (rowPKey (openingRow dateStr kq.1 kq.2)) else none) = some kq.1 := by
      rw [if_pos (show (openingRow dateStr kq.1 kq.2).invoice_no = "Opening Stock"
        from rfl), rowPKey_openingRow]
    rw [hif]
    have htl := ih
    unfold openingKeys at htl
    exact congrArg (List.cons kq.1) htl

/-- After the write phase, every aggregated key appears among the target's
"Opening Stock" keys. -/
theorem mem_openingKeys_write (dateStr : String) (m : List (PKey × ℚ))
    (dest : Option (List PurchRow)) (l : List PurchRow)
    (hwrite : carryForwardWrite dateStr m dest = some l) :
    ∀ kq ∈ m, kq.1 ∈ openingKeys l := by
  intro kq hkq
  cases dest with
  | none =>
    have hl : l = m.map (fun kq => openingRow dateStr kq.1 kq.2) :=
      (Option.some.inj hwrite).symm
    rw [hl, openingKeys_map_openingRow]
    exact List.mem_map.mpr ⟨kq, hkq, rfl⟩
  | some drows =>
    have hl : l = drows ++
        ((m.filter (fun kq => decide (kq.1 ∉ openingKeys drows))).map
          (fun kq => openingRow dateStr kq.1 kq.2)) :=
      (Option.some.inj hwrite).symm
    rw [hl, openingKeys_append]
    by_cases hmem : kq.1 ∈ openingKeys drows
    · exact List.mem_append.mpr (Or.inl hmem)
    · refine List.mem_append.mpr (Or.inr ?_)
      rw [openingKeys_map_openingRow]
      refine List.mem_map.mpr ⟨kq, ?_, rfl⟩
      exact List.mem_filter.mpr ⟨hkq, by simpa using hmem⟩

/-- Claim C5: running the carry-forward twice for the same prior/target FY
pair leaves the target FY sheet identical after the second run to its state
after the first: the second run finds every composite key already present
as an "Opening Stock" row and appends nothing. -/
theorem carry_forward_idempotent (month : ℕ) (dateStr : String)
    (prev dest : Option (List PurchRow)) :
    carry_forward_purchase_fy_stock month dateStr prev
        (carry_forward_purchase_fy_stock month dateStr prev dest) =
      carry_forward_purchase_fy_stock month dateStr prev dest := by
  unfold carry_forward_purchase_fy_stock
  by_cases hm : month < 4
  · rw [if_pos hm, if_pos hm]
  · rw [if_neg hm, if_neg hm]
    cases prev with
    | none => rfl
    | some prows =>
      show (if collectStockMap prows = [] then
          (if collectStockMap prows = [] then dest
           else carryForwardWrite dateStr (collectStockMap prows) dest)
        else
          carryForwardWrite dateStr (collectStockMap prows)
            (if collectStockMap prows = [] then dest
             else carryForwardWrite dateStr (collectStockMap prows) dest)) =
        (if collectStockMap prows = [] then dest
         else carryForwardWrite dateStr (collectStockMap prows) dest)
      by_cases hmap : collectStockMap prows = []
      · simp only [if_pos hmap]
      · simp only [if_neg hmap]
        cases hw : carryForwardWrite dateStr (collectStockMap prows) dest with
        | none => cases dest <;> simp [carryForwardWrite] at hw
        | some l =>
          have hcov := mem_openingKeys_write dateStr (collectStockMap prows) dest l hw
          have hnil : (collectStockMap prows).filter
              (fun kq => decide (kq.1 ∉ openingKeys l)) = [] := by
            rw [List.filter_eq_nil_iff]
            intro kq hkq
            simpa using hcov kq hkq
          show some (l ++ ((collectStockMap prows).filter
              (fun kq => decide (kq.1 ∉ openingKeys l))).map
              (fun kq => openingRow dateStr kq.1 kq.2)) = some l
          rw [hnil]
          simp

/-! ## C7: session bill numbering (sales.py:99-133, 284-289, 1021) -/

/-- SQL `SELECT MAX(bill_number) FROM bills` over the stored bill numbers
(`none` when the table is empty). -/
def sqlMaxInt (nums : List ℤ) : Option ℤ :=
  nums.foldl
    (fun acc n =>
      match acc with
      | none => some n
      | some m => some (max m n))
    none

/-- `get_last_bill_number_from_db` (sales.py:99): the SQL maximum, with a
falsy result (`NULL` or 0) replaced by 0. -/
def get_last_bill_number_from_db (nums : List ℤ) : ℤ :=
  match sqlMaxInt nums with
  | none => 0
  | some m => if m = 0 then 0 else m

/-- `get_last_bill_number_from_excel` (sales.py:109): fold over the sheet's
parseable integer first-column values, keeping the largest value above the
running maximum, starting from 0. -/
def get_last_bill_number_from_excel (cells : List ℤ) : ℤ :=
  cells.foldl (fun maxNo n => if n > maxNo then n else maxNo) 0

/-- `self.last_bill_no` as computed once in `SalesWidget.__init__`
(sales.py:284-289): the maximum of the DB maximum and the two sheet maxima. -/
def initial_last_bill_no (db fy mo : List ℤ) : ℤ :=
  max (get_last_bill_number_from_db db)
    (max (get_last_bill_number_from_excel fy) (get_last_bill_number_from_excel mo))

/-- The bill number assigned to the `n`-th bill saved in the session
(`self.last_bill_no += 1` per save, sales.py:1021). -/
def nth_session_bill_number (db fy mo : List ℤ) (n : ℕ) : ℤ :=
  initial_last_bill_no db fy mo + n

theorem sqlMaxInt_fold_some (nums : List ℤ) (a : ℤ) :
    ∃ m, nums.foldl
        (fun acc n =>
          match acc with
          | none => some n
          | some m => some (max m n))
        (some a) = some m ∧ a ≤ m ∧ ∀ x ∈ nums, x ≤ m := by
  induction nums generalizing a with
  | nil => exact ⟨a, rfl, le_refl a, by simp⟩
  | cons n tl ih =>
    rcases ih (max a n) with ⟨m, hm, ham, hall⟩
    refine ⟨m, hm, le_trans (le_max_left a n) ham, ?_⟩
    intro x hx
    rcases List.mem_cons.mp hx with rfl | hx
    · exact le_trans (le_max_right a x) ham
    · exact hall x hx

theorem get_last_bill_number_from_db_ge (db : List ℤ) :
    ∀ x ∈ db, x ≤ get_last_bill_number_from_db db := by
  intro x hx
  unfold get_last_bill_number_from_db sqlMaxInt
  cases db with
  | nil => exact absurd hx (List.not_mem_nil x)
  | cons n tl =>
    have hfold : (n :: tl).foldl
        (fun acc n =>
          match acc with
          | none => some n
          | some m => some (max m n))
        none = tl.foldl
        (fun acc n =>
          match acc with
          | none => some n
          | some m => some (max m n))
        (some n) := rfl
    rcases sqlMaxInt_fold_some tl n with ⟨m, hm, hnm, hall⟩
    rw [hfold, hm]
    have hxm : x ≤ m := by
      rcases List.mem_cons.mp hx with rfl | hx
      · exact hnm
      · exact hall x hx
    show x ≤ if m = 0 then 0 else m
    by_cases hm0 : m = 0
    · rw [if_pos hm0]
      rw [hm0] at hxm
      exact hxm
    · rw [if_neg hm0]
      exact hxm

theorem get_last_bill_number_from_excel_spec (cells : List ℤ) :
    0 ≤ get_last_bill_number_from_excel cells ∧
      ∀ x ∈ cells, x ≤ get_last_bill_number_from_excel cells := by
  have haux : ∀ (l : List ℤ) (a : ℤ),
      a ≤ l.foldl (fun maxNo n => if n > maxNo then n else maxNo) a ∧
      ∀ x ∈ l, x ≤ l.foldl (fun maxNo n => if n > maxNo then n else maxNo) a := by
    intro l
    induction l with
    | nil => exact fun a => ⟨le_refl a, by simp⟩
    | cons n tl ih =>
      intro a
      have hstep : (if n > a then n else a) = max a n := by
        by_cases h : n > a
        · rw [if_pos h, max_eq_right (le_of_lt h)]
        · rw [if_neg h, max_eq_left (le_of_not_lt h)]
      have hfold : (n :: tl).foldl (fun maxNo n => if n > maxNo then n else maxNo) a =
          tl.foldl (fun maxNo n => if n > maxNo then n else maxNo)
            (if n > a then n else a) := rfl
      rcases ih (if n > a then n else a) with ⟨h1, h2⟩
      constructor
      · rw [hfold]
        refine le_trans ?_ h1
        rw [hstep]
        exact le_max_left a n
      · intro x hx
        rw [hfold]
        rcases List.mem_cons.mp hx with rfl | hx
        · refine le_trans ?_ h1
          rw [hstep]
          exact le_max_right a x
        · exact h2 x hx
  exact (haux cells 0)

/-- Claim C7: the session's starting `last_bill_no` is the maximum of the
relational and spreadsheet maxima, computed once; the `n`-th bill saved in
the session gets that value plus `n`, which is strictly greater than every
bill number present in any of the three backends at session start. -/
theorem session_bill_numbers_fresh (db fy mo : List ℤ) (n : ℕ) (hn : 1 ≤ n) :
    ∀ x, (x ∈ db ∨ x ∈ fy ∨ x ∈ mo) → x < nth_session_bill_number db fy mo n := by
  intro x hx
  have hinit : x ≤ initial_last_bill_no db fy mo := by
    unfold initial_last_bill_no
    rcases hx with hdb | hfy | hmo
    · exact le_trans (get_last_bill_number_from_db_ge db x hdb) (le_max_left _ _)
    · exact le_trans ((get_last_bill_number_from_excel_spec fy).2 x hfy)
        (le_trans (le_max_left _ _) (le_max_right _ _))
    · exact le_trans ((get_last_bill_number_from_excel_spec mo).2 x hmo)
        (le_trans (le_max_right _ _) (le_max_right _ _))
  unfold nth_session_bill_number
  have hn' : (0 : ℤ) < n := by exact_mod_cast hn
  linarith

/-- Witness for `session_bill_numbers_fresh`: with DB bills `{3, 7}` and
spreadsheet numbers `{9}` and `{}`, the first bill of the session numbers
strictly above 9, 7 and 3. -/
theorem session_bill_numbers_fresh_witness :
    (9 : ℤ) < nth_session_bill_number [3, 7] [9] [] 1 ∧
    (7 : ℤ) < nth_session_bill_number [3, 7] [9] [] 1 := by
  constructor
  · exact session_bill_numbers_fresh [3, 7] [9] [] 1 (le_refl 1) 9
      (Or.inr (Or.inl (by simp)))
  · exact session_bill_numbers_fresh [3, 7] [9] [] 1 (le_refl 1) 7
      (Or.inl (by simp))

/-! ## C10 / C8: the relational `bills` table and `update_loaded_bill` -/

/-- A row of the `bills` SQLite table (sales.py:53-71). -/
structure BillRow where
  bill_number : ℤ
  date : String
  customer_name : String
  mobile : String
  village : String
  aadhar : String
  product_details : String
  subtotal : ℚ
  discount : ℚ
  gst_total : ℚ
  total : ℚ
  payment_mode : String
  cash_amount : ℚ
  upi_amount : ℚ
  entry_by : String
deriving DecidableEq, Repr

/-- `SELECT * FROM bills WHERE bill_number = ?` + `fetchone()`. -/
def lookupBill (db : List BillRow) (n : ℤ) : Option BillRow :=
  db.find? (fun r => r.bill_number == n)

/-- The plain `INSERT INTO bills` of sales.py:141: appends the row, or
raises `sqlite3.IntegrityError` (here: `none`) when the primary key
`bill_number` already exists. -/
def tryInsertBill (db : List BillRow) (r : BillRow) : Option (List BillRow) :=
  if db.any (fun x => x.bill_number == r.bill_number) then none
  else some (db ++ [r])

/-- `insert_bill_into_db` (sales.py:135-159): `INSERT`, and on the caught
`IntegrityError` an `UPDATE ... WHERE bill_number=?` that rewrites every
non-key column of the conflicting row to the new values. -/
def insert_bill_into_db (db : List BillRow) (r : BillRow) : List BillRow :=
  match tryInsertBill db r with
  | some db' => db'
  | none =>
    db.map (fun x => if x.bill_number = r.bill_number then r else x)

theorem lookupBill_map_overwrite {db : List BillRow} {r : BillRow}
    (hany : db.any (fun x => x.bill_number == r.bill_number) = true) :
    lookupBill (db.map (fun x => if x.bill_number = r.bill_number then r else x))
      r.bill_number = some r := by
  induction db with
  | nil => simp at hany
  | cons x tl ih =>
    rw [List.map_cons]
    by_cases hx : x.bill_number = r.bill_number
    · rw [if_pos hx]
      unfold lookupBill
      rw [List.find?_cons_of_pos _ (by simp)]
    · rw [if_neg hx]
      unfold lookupBill
      rw [List.find?_cons_of_neg _ (by simpa using hx)]
      apply ih
      rcases List.any_eq_true.mp hany with ⟨y, hy, hpy⟩
      rcases List.mem_cons.mp hy with rfl | hy
      · exact absurd (by simpa using hpy) hx
      · exact List.any_eq_true.mpr ⟨y, hy, hpy⟩

theorem lookupBill_map_overwrite_ne {db : List BillRow} {r : BillRow} {n : ℤ}
    (hn : n ≠ r.bill_number) :
    lookupBill (db.map (fun x => if x.bill_number = r.bill_number then r else x)) n =
      lookupBill db n := by
  induction db with
  | nil => rfl
  | cons x tl ih =>
    rw [List.map_cons]
    by_cases hx : x.bill_number = r.bill_number
    · rw [if_pos hx]
      unfold lookupBill
      rw [List.find?_cons_of_neg _ (by simpa using fun h => hn h.symm),
        List.find?_cons_of_neg _ (by
          simp only [beq_iff_eq]
          rw [hx]
          exact fun h => hn h.symm)]
      exact ih
    · rw [if_neg hx]
      unfold lookupBill
      by_cases hxn : x.bill_number = n
      · rw [List.find?_cons_of_pos _ (by simpa using hxn),
          List.find?_cons_of_pos _ (by simpa using hxn)]
      · rw [List.find?_cons_of_neg _ (by simpa using hxn),
          List.find?_cons_of_neg _ (by simpa using hxn)]
        exact ih

/-- Claim C10: `insert_bill_into_db` never surfaces the primary-key
conflict: for every table and row it totals as an upsert — afterwards the
row stored under the new row's `bill_number` is exactly the new row, and
every other bill number's row is untouched. -/
theorem insert_bill_into_db_upsert (db : List BillRow) (r : BillRow) :
    lookupBill (insert_bill_into_db db r) r.bill_number = some r ∧
    ∀ n, n ≠ r.bill_number →
      lookupBill (insert_bill_into_db db r) n = lookupBill db n := by
  unfold insert_bill_into_db tryInsertBill
  by_cases hany : db.any (fun x => x.bill_number == r.bill_number) = true
  · rw [if_pos hany]
    exact ⟨lookupBill_map_overwrite hany,
      fun n hn => lookupBill_map_overwrite_ne hn⟩
  · rw [if_neg hany]
    constructor
    · show lookupBill (db ++ [r]) r.bill_number = some r
      unfold lookupBill
      rw [List.find?_append]
      have hnone : db.find? (fun x => x.bill_number == r.bill_number) = none := by
        cases hfind : db.find? (fun x => x.bill_number == r.bill_number) with
        | none => rfl
        | some y =>
          exact absurd
            (List.any_eq_true.mpr
              ⟨y, List.mem_of_find?_eq_some hfind, List.find?_some hfind⟩) hany
      rw [hnone]
      rw [List.find?_cons_of_pos _ (by simp)]
      rfl
    · intro n hn
      show lookupBill (db ++ [r]) n = lookupBill db n
      unfold lookupBill
      rw [List.find?_append]
      cases hfind : db.find? (fun x => x.bill_number == n) with
      | some y => rfl
      | none =>
        rw [List.find?_cons_of_neg _ (by simpa using fun h => hn h.symm)]
        rfl

/-- Witness for `insert_bill_into_db_upsert` (second conjunct has the
hypothesis): upserting bill 7 over a table holding bills 7 and 9 rewrites
bill 7 and leaves bill 9 unchanged. -/
theorem insert_bill_into_db_upsert_witness :
    lookupBill
      (insert_bill_into_db
        [⟨7, "2025-05-01 10:00:00", "Asha", "9876543210", "V1", "", "Urea|3|10.00",
          30, 0, 5.4, 30, "Cash", 30, 0, "admin"⟩,
         ⟨9, "2025-05-02 11:00:00", "Ravi", "9123456780", "V2", "", "DAP|1|20.00",
          20, 0, 3.6, 20, "UPI", 0, 20, "admin"⟩]
        ⟨7, "2025-05-01 10:00:00", "Asha", "9876543210", "V1", "", "Urea|2|10.00",
          20, 0, 3.6, 20, "Cash", 20, 0, "admin"⟩) 7 =
      some ⟨7, "2025-05-01 10:00:00", "Asha", "9876543210", "V1", "", "Urea|2|10.00",
        20, 0, 3.6, 20, "Cash", 20, 0, "admin"⟩ ∧
    lookupBill
      (insert_bill_into_db
        [⟨7, "2025-05-01 10:00:00", "Asha", "9876543210", "V1", "", "Urea|3|10.00",
          30, 0, 5.4, 30, "Cash", 30, 0, "admin"⟩,
         ⟨9, "2025-05-02 11:00:00", "Ravi", "9123456780", "V2", "", "DAP|1|20.00",
          20, 0, 3.6, 20, "UPI", 0, 20, "admin"⟩]
        ⟨7, "2025-05-01 10:00:00", "Asha", "9876543210", "V1", "", "Urea|2|10.00",
          20, 0, 3.6, 20, "Cash", 20, 0, "admin"⟩) 9 =
      lookupBill
        [⟨7, "2025-05-01 10:00:00", "Asha", "9876543210", "V1", "", "Urea|3|10.00",
          30, 0, 5.4, 30, "Cash", 30, 0, "admin"⟩,
         ⟨9, "2025-05-02 11:00:00", "Ravi", "9123456780", "V2", "", "DAP|1|20.00",
          20, 0, 3.6, 20, "UPI", 0, 20, "admin"⟩] 9 := by
  refine ⟨(insert_bill_into_db_upsert _ _).1,
    (insert_bill_into_db_upsert _ _).2 9 (by norm_num)⟩

/-! ## C4: `delete_bill_by_number` over the bills table and the stock ledger -/

/-- `delete_bill_from_db` (sales.py:161-170):
`DELETE FROM bills WHERE bill_number = ?`. -/
def delete_bill_from_db (db : List BillRow) (n : ℤ) : List BillRow :=
  db.filter (fun r => !(r.bill_number == n))

/-- `delete_bill_by_number` (sales.py:1404-1442): fetch the bill row by
number (`fetchone`); if absent, return with no change; otherwise parse its
stored `product_details`, add every parsed item back to the stock ledger
(`increase_stock_in_db`), and delete the relational bill row. -/
def delete_bill_by_number (bills : List BillRow) (t : StockTable) (n : ℤ) :
    Option (List BillRow × StockTable) :=
  match lookupBill bills n with
  | none => none
  | some r =>
    some (delete_bill_from_db bills n, delete_bill_stock t r.product_details)

theorem lookupBill_delete_self (bills : List BillRow) (n : ℤ) :
    lookupBill (delete_bill_from_db bills n) n = none := by
  induction bills with
  | nil => rfl
  | cons x tl ih =>
    unfold delete_bill_from_db at ih ⊢
    by_cases hx : x.bill_number = n
    · rw [List.filter_cons_of_neg (by simp [hx])]
      exact ih
    · rw [List.filter_cons_of_pos (by simp [hx])]
      unfold lookupBill
      rw [List.find?_cons_of_neg _ (by simpa using hx)]
      exact ih

theorem lookupBill_delete_ne (bills : List BillRow) (n m : ℤ) (hm : m ≠ n) :
    lookupBill (delete_bill_from_db bills n) m = lookupBill bills m := by
  induction bills with
  | nil => rfl
  | cons x tl ih =>
    unfold delete_bill_from_db at ih ⊢
    by_cases hx : x.bill_number = n
    · rw [List.filter_cons_of_neg (by simp [hx])]
      unfold lookupBill
      rw [List.find?_cons_of_neg _ (by
        simp only [beq_iff_eq]
        rw [hx]
        exact fun h => hm h.symm)]
      exact ih
    · rw [List.filter_cons_of_pos (by simp [hx])]
      unfold lookupBill
      by_cases hxm : x.bill_number = m
      · rw [List.find?_cons_of_pos _ (by simpa using hxm),
          List.find?_cons_of_pos _ (by simpa using hxm)]
      · rw [List.find?_cons_of_neg _ (by simpa using hxm),
          List.find?_cons_of_neg _ (by simpa using hxm)]
        exact ih

/-- Claim C4 (amended): for a bill whose save succeeded, whose line items
all pass the stock guards, whose aggregated per-product quantities do not
exceed the exactly-available stock, and whose stored product-details
string parses back to items with the same normalized names and quantities
(in particular no product name contains a `|` or `;`), deleting the bill
by its number removes the relational bill row, leaves every other bill
row unchanged, and restores every product's available stock to its value
before the bill. -/
theorem delete_bill_restores_stock (bills : List BillRow) (t t' : StockTable)
    (r : BillRow) (items : List SaleItem) (fmtQ fmtP : ℚ → String)
    (ht : stockNonNeg t)
    (hgood : ∀ i ∈ items, itemActive i)
    (hsum : ∀ i ∈ items, sumKey (keyOf i) items ≤ stockQtyAt t (keyOf i))
    (hsave : save_bill_stock t items = some t')
    (hrow : lookupBill bills r.bill_number = some r)
    (hpd : r.product_details = mkProductsStr fmtQ fmtP items)
    (hparse : (parse_product_details_str (mkProductsStr fmtQ fmtP items)).map sigOf =
      items.map sigOf) :
    delete_bill_by_number bills t' r.bill_number =
      some (delete_bill_from_db bills r.bill_number,
        delete_bill_stock t' r.product_details) ∧
    lookupBill (delete_bill_from_db bills r.bill_number) r.bill_number = none ∧
    (∀ m, m ≠ r.bill_number →
      lookupBill (delete_bill_from_db bills r.bill_number) m =
        lookupBill bills m) ∧
    ∀ k, stockQtyAt (delete_bill_stock t' r.product_details) k =
      stockQtyAt t k := by
  refine ⟨?_, lookupBill_delete_self bills r.bill_number,
    fun m hm => lookupBill_delete_ne bills r.bill_number m hm, ?_⟩
  · unfold delete_bill_by_number
    rw [hrow]
  · intro k
    rw [hpd]
    have ht' : t' = reduce_stock_in_db t items := by
      unfold save_bill_stock at hsave
      by_cases hval : ∃ k ∈ items.map keyOf,
          get_available_stock t k + eps6 < sumKey k items
      · rw [if_pos hval] at hsave
        exact absurd hsave (by simp)
      · rw [if_neg hval] at hsave
        exact (Option.some.inj hsave).symm
    have hsumG : ∀ k', sumKeyG k' items ≤ stockQtyAt t k' := by
      intro k'
      by_cases hz : sumKeyG k' items = 0
      · rw [hz]
        exact stockQtyAt_nonneg ht k'
      · rcases sumKeyG_ne_zero_exists hz with ⟨i, hi, -, hki⟩
        have := hsum i hi
        rw [hki] at this
        calc sumKeyG k' items = sumKey k' items :=
            sumKeyG_eq_sumKey (fun j hj => hgood j hj)
          _ ≤ stockQtyAt t k' := this
    have hred : stockQtyAt t' k = stockQtyAt t k - sumKeyG k items := by
      rw [ht']
      exact stockQtyAt_reduce_all_g t items k (hsumG k)
    unfold delete_bill_stock
    rw [stockQtyAt_increase_all_g, hred,
      sumKeyG_congr hparse]
    ring

/-- The stored relational row of the C4 counterexample bill: bill number 1
with the single line item `"A|B" qty 2 price 10`. -/
def pipeBillRow : BillRow :=
  ⟨1, "2025-05-01 10:00:00", "Asha", "9876543210", "V1", "",
    mkProductsStr intStr intStr [⟨"A|B", 2, 10⟩], 20, 0, 3.6, 20, "Cash",
    20, 0, "admin"⟩

/-- Claim C4 (counterexample): a bill with the single line item
`"A|B" qty 2 price 10` saves successfully over stock `A|B = 5` (leaving 3)
and `delete_bill_by_number` does remove its relational row, but it
restores nothing to the ledger: the stored string `"A|B|2|10"` re-splits
on `|` into four parts, so `parse_product_details_str` silently drops the
item and the available stock stays at 3 instead of returning to the
pre-bill 5. -/
theorem delete_bill_counterexample :
    save_bill_stock [("A|B", 5)] [⟨"A|B", 2, 10⟩] =
      some (reduce_stock_in_db [("A|B", 5)] [⟨"A|B", 2, 10⟩]) ∧
    delete_bill_by_number [pipeBillRow]
        (reduce_stock_in_db [("A|B", 5)] [⟨"A|B", 2, 10⟩]) 1 =
      some ([], reduce_stock_in_db [("A|B", 5)] [⟨"A|B", 2, 10⟩]) ∧
    stockQtyAt (reduce_stock_in_db [("A|B", 5)] [⟨"A|B", 2, 10⟩]) "a|b" = 3 ∧
    stockQtyAt [("A|B", (5 : ℚ))] "a|b" = 5 ∧ (3 : ℚ) ≠ 5 := by
  have hkey : keyOf ⟨"A|B", 2, 10⟩ = "a|b" := rfl
  have hsum2 : sumKey "a|b" [(⟨"A|B", 2, 10⟩ : SaleItem)] = 2 := by
    rw [sumKey_cons, sumKey_nil, hkey]
    simp
  refine ⟨?_, rfl, ?_, rfl, by norm_num⟩
  · unfold save_bill_stock
    rw [if_neg ?_]
    rintro ⟨k, hk, hlt⟩
    have hmap : ([(⟨"A|B", 2, 10⟩ : SaleItem)].map keyOf) = ["a|b"] := rfl
    rw [hmap] at hk
    simp only [List.mem_singleton] at hk
    subst hk
    have havail : get_available_stock [("A|B", (5 : ℚ))] "a|b" = 5 := rfl
    rw [havail, hsum2] at hlt
    norm_num [eps6] at hlt
  · have hfold : reduce_stock_in_db [("A|B", (5 : ℚ))] [⟨"A|B", 2, 10⟩] =
        reduce_stock_one [("A|B", 5)] ⟨"A|B", 2, 10⟩ := rfl
    rw [hfold, stockQtyAt_reduce_one,
      if_neg (by
        push_neg
        refine ⟨by decide, ?_⟩
        norm_num), if_pos hkey]
    have h0 : stockQtyAt [("A|B", (5 : ℚ))] "a|b" = 5 := rfl
    rw [h0]
    norm_num

/-- The stored relational row of the C4 witness bill: bill number 7 with
the delimiter-free single line item `Urea qty 2 price 10`. -/
def ureaBillRow : BillRow :=
  ⟨7, "2025-05-01 10:00:00", "Asha", "9876543210", "V1", "",
    mkProductsStr intStr intStr [⟨"Urea", 2, 10⟩], 20, 0, 3.6, 20, "Cash",
    20, 0, "admin"⟩

/-- Witness for `delete_bill_restores_stock`: deleting the delimiter-free
bill 7 (`Urea qty 2 price 10`, saved over stock `Urea = 5`, leaving 3)
removes its relational row and restores the ledger to 5. -/
theorem delete_bill_restores_stock_witness :
    delete_bill_by_number [ureaBillRow]
        (reduce_stock_in_db [("Urea", 5)] [⟨"Urea", 2, 10⟩]) 7 =
      some (delete_bill_from_db [ureaBillRow] 7,
        delete_bill_stock (reduce_stock_in_db [("Urea", 5)] [⟨"Urea", 2, 10⟩])
          (mkProductsStr intStr intStr [⟨"Urea", 2, 10⟩])) ∧
    lookupBill (delete_bill_from_db [ureaBillRow] 7) 7 = none ∧
    (∀ m, m ≠ 7 →
      lookupBill (delete_bill_from_db [ureaBillRow] 7) m =
        lookupBill [ureaBillRow] m) ∧
    ∀ k, stockQtyAt
        (delete_bill_stock (reduce_stock_in_db [("Urea", 5)] [⟨"Urea", 2, 10⟩])
          (mkProductsStr intStr intStr [⟨"Urea", 2, 10⟩])) k =
      stockQtyAt [("Urea", (5 : ℚ))] k := by
  have hkey : keyOf ⟨"Urea", 2, 10⟩ = "urea" := rfl
  have hsum2 : sumKey "urea" [(⟨"Urea", 2, 10⟩ : SaleItem)] = 2 := by
    rw [sumKey_cons, sumKey_nil, hkey]
    simp
  have hsave : save_bill_stock [("Urea", 5)] [⟨"Urea", 2, 10⟩] =
      some (reduce_stock_in_db [("Urea", 5)] [⟨"Urea", 2, 10⟩]) := by
    unfold save_bill_stock
    rw [if_neg ?_]
    rintro ⟨k, hk, hlt⟩
    have hmap : ([(⟨"Urea", 2, 10⟩ : SaleItem)].map keyOf) = ["urea"] := rfl
    rw [hmap] at hk
    simp only [List.mem_singleton] at hk
    subst hk
    have havail : get_available_stock [("Urea", (5 : ℚ))] "urea" = 5 := rfl
    rw [havail, hsum2] at hlt
    norm_num [eps6] at hlt
  have hp : parse_product_details_str (mkProductsStr intStr intStr
      [⟨"Urea", 2, 10⟩]) =
      [⟨"Urea", 1 * ((2 : ℕ) : ℚ), 1 * ((10 : ℕ) : ℚ)⟩] := rfl
  exact delete_bill_restores_stock [ureaBillRow] [("Urea", 5)]
    (reduce_stock_in_db [("Urea", 5)] [⟨"Urea", 2, 10⟩]) ureaBillRow
    [⟨"Urea", 2, 10⟩] intStr intStr
    (by
      intro r hr
      rcases List.mem_singleton.mp hr with rfl
      norm_num)
    (by
      intro i hi
      rcases List.mem_singleton.mp hi with rfl
      unfold itemActive
      push_neg
      refine ⟨by decide, ?_⟩
      norm_num)
    (by
      intro i hi
      rcases List.mem_singleton.mp hi with rfl
      rw [hkey, hsum2]
      have h0 : stockQtyAt [("Urea", (5 : ℚ))] "urea" = 5 := rfl
      rw [h0]
      norm_num)
    hsave
    rfl
    rfl
    (by
      rw [hp]
      simp only [List.map_cons, List.map_nil, sigOf]
      norm_num)

/-- `SalesWidget._normalize_mobile` (sales.py:590): keep only digits. -/
def normalizeMobile (s : String) : String :=
  (s.toList.filter Char.isDigit).asString

/-- The persistent state `update_loaded_bill` can touch: the relational
`bills` table, the stock ledger, and the FY and monthly sales spreadsheets
("Bills" sheets). -/
structure SalesState where
  bills : List BillRow
  stock : StockTable
  excelFY : List BillRow
  excelM : List BillRow

/-- `update_loaded_bill` (sales.py:1305-1402): validations (customer fields,
non-empty products, non-negative discount and payment amounts, payment sum
within 0.01 of the payable total), then the delta-engine stock adjustment,
then the in-place relational upsert keyed by the loaded bill's number with
the loaded (original) date-time.  No spreadsheet is written.  Returns
`none` when any validation or the stock check rejects (no state change). -/
def update_loaded_bill (st : SalesState) (loadedNo : ℤ) (loadedDT : String)
    (oldP newP : List SaleItem) (custName mobile village aadhar : String)
    (discount cashAmt upiAmt : ℚ) (paymentMode entryBy : String)
    (fmtQ fmtP : ℚ → String) : Option SalesState :=
  if custName = "" ∨ mobile = "" then none
  else if newP = [] then none
  else if discount < 0 then none
  else if cashAmt < 0 ∨ upiAmt < 0 then none
  else if 1/100 < |cashAmt + upiAmt -
      max 0 ((newP.map (fun p => p.qty * p.price)).sum - discount)| then none
  else
    match update_bill_stock st.stock oldP newP with
    | none => none
    | some stock2 =>
      some { st with
        bills := insert_bill_into_db st.bills
          ⟨loadedNo, loadedDT, custName, normalizeMobile mobile, village, aadhar,
            mkProductsStr fmtQ fmtP newP,
            (newP.map (fun p => p.qty * p.price)).sum, discount,
            (newP.map (fun p => p.qty * p.price)).sum * (18/100),
            max 0 ((newP.map (fun p => p.qty * p.price)).sum - discount),
            paymentMode, cashAmt, upiAmt, entryBy⟩,
        stock := stock2 }

/-- Claim C8: a successful update writes the relational row under the
original `bill_number` with the original creation timestamp (the loaded
date equals the stored row's date), leaves every other bill row untouched,
and does not modify the FY or monthly spreadsheet logs. -/
theorem update_loaded_bill_preserves (st st' : SalesState) (loadedNo : ℤ)
    (loadedDT : String) (oldP newP : List SaleItem)
    (custName mobile village aadhar : String) (discount cashAmt upiAmt : ℚ)
    (paymentMode entryBy : String) (fmtQ fmtP : ℚ → String) (r0 : BillRow)
    (hload : lookupBill st.bills loadedNo = some r0)
    (hdt : loadedDT = r0.date)
    (hupd : update_loaded_bill st loadedNo loadedDT oldP newP custName mobile
      village aadhar discount cashAmt upiAmt paymentMode entryBy fmtQ fmtP =
      some st') :
    st'.excelFY = st.excelFY ∧ st'.excelM = st.excelM ∧
    (∃ r', lookupBill st'.bills loadedNo = some r' ∧
      r'.bill_number = loadedNo ∧ r'.date = r0.date) ∧
    (∀ n, n ≠ loadedNo → lookupBill st'.bills n = lookupBill st.bills n) := by
  unfold update_loaded_bill at hupd
  repeat' split at hupd
  any_goals exact Option.noConfusion hupd
  rename_i stock2 hstock
  have hst : st' = { st with
      bills := insert_bill_into_db st.bills
        ⟨loadedNo, loadedDT, custName, normalizeMobile mobile, village, aadhar,
          mkProductsStr fmtQ fmtP newP,
          (newP.map (fun p => p.qty * p.price)).sum, discount,
          (newP.map (fun p => p.qty * p.price)).sum * (18/100),
          max 0 ((newP.map (fun p => p.qty * p.price)).sum - discount),
          paymentMode, cashAmt, upiAmt, entryBy⟩,
      stock := stock2 } := (Option.some.inj hupd).symm
  subst hst
  refine ⟨rfl, rfl, ?_, ?_⟩
  · refine ⟨_, (insert_bill_into_db_upsert st.bills _).1, rfl, hdt ▸ rfl⟩
  · intro n hn
    exact (insert_bill_into_db_upsert st.bills _).2 n hn

/-- Witness for `update_loaded_bill_preserves`: re-saving loaded bill 7
(same line items, so the stock delta is zero) succeeds, keeps the original
number and timestamp, and leaves the spreadsheets untouched. -/
theorem update_loaded_bill_preserves_witness :
    ∃ st', update_loaded_bill
        ⟨[⟨7, "2025-05-01 10:00:00", "Asha", "9876543210", "V1", "", "Urea|3|10",
            30, 0, 5.4, 30, "Cash", 30, 0, "admin"⟩],
          [("Urea", 5)],
          [⟨7, "2025-05-01 10:00:00", "Asha", "9876543210", "V1", "", "Urea|3|10",
            30, 0, 5.4, 30, "Cash", 30, 0, "admin"⟩],
          [⟨7, "2025-05-01 10:00:00", "Asha", "9876543210", "V1", "", "Urea|3|10",
            30, 0, 5.4, 30, "Cash", 30, 0, "admin"⟩]⟩
        7 "2025-05-01 10:00:00" [⟨"Urea", 3, 10⟩] [⟨"Urea", 3, 10⟩]
        "Asha" "9876543210" "V1" "" 0 30 0 "Cash" "staff2" intStr intStr =
        some st' ∧
      st'.excelFY = [⟨7, "2025-05-01 10:00:00", "Asha", "9876543210", "V1", "",
        "Urea|3|10", 30, 0, 5.4, 30, "Cash", 30, 0, "admin"⟩] ∧
      (∃ r', lookupBill st'.bills 7 = some r' ∧ r'.bill_number = 7 ∧
        r'.date = "2025-05-01 10:00:00") := by
  have hdu : deltaFor [(⟨"Urea", 3, 10⟩ : SaleItem)] [⟨"Urea", 3, 10⟩] "urea" = 0 := by
    unfold deltaFor
    norm_num
  have hkeys : updKeys [(⟨"Urea", 3, 10⟩ : SaleItem)] [⟨"Urea", 3, 10⟩] =
      ["urea"] := rfl
  have hstock : update_bill_stock [("Urea", 5)] [⟨"Urea", 3, 10⟩]
      [⟨"Urea", 3, 10⟩] =
      some (reduce_stock_in_db
        (increase_stock_in_db [("Urea", 5)]
          (incListOf [⟨"Urea", 3, 10⟩] [⟨"Urea", 3, 10⟩]))
        (redListOf [⟨"Urea", 3, 10⟩] [⟨"Urea", 3, 10⟩])) := by
    unfold update_bill_stock
    rw [if_neg ?_]
    rintro ⟨k, hk, h1, -⟩
    rw [hkeys] at hk
    simp only [List.mem_singleton] at hk
    subst hk
    rw [hdu] at h1
    norm_num [eps9] at h1
  have hsum : (([⟨"Urea", 3, 10⟩] : List SaleItem).map
      (fun p => p.qty * p.price)).sum = 30 := by
    simp
    norm_num
  have hupd : update_loaded_bill
      ⟨[⟨7, "2025-05-01 10:00:00", "Asha", "9876543210", "V1", "", "Urea|3|10",
          30, 0, 5.4, 30, "Cash", 30, 0, "admin"⟩],
        [("Urea", 5)],
        [⟨7, "2025-05-01 10:00:00", "Asha", "9876543210", "V1", "", "Urea|3|10",
          30, 0, 5.4, 30, "Cash", 30, 0, "admin"⟩],
        [⟨7, "2025-05-01 10:00:00", "Asha", "9876543210", "V1", "", "Urea|3|10",
          30, 0, 5.4, 30, "Cash", 30, 0, "admin"⟩]⟩
      7 "2025-05-01 10:00:00" [⟨"Urea", 3, 10⟩] [⟨"Urea", 3, 10⟩]
      "Asha" "9876543210" "V1" "" 0 30 0 "Cash" "staff2" intStr intStr =
      some
        { bills :=
            (insert_bill_into_db
              [⟨7, "2025-05-01 10:00:00", "Asha", "9876543210", "V1", "", "Urea|3|10",
                30, 0, 5.4, 30, "Cash", 30, 0, "admin"⟩]
              ⟨7, "2025-05-01 10:00:00", "Asha", normalizeMobile "9876543210", "V1", "",
                mkProductsStr intStr intStr [⟨"Urea", 3, 10⟩],
                (([⟨"Urea", 3, 10⟩] : List SaleItem).map
                  (fun p => p.qty * p.price)).sum, 0,
                (([⟨"Urea", 3, 10⟩] : List SaleItem).map
                  (fun p => p.qty * p.price)).sum * (18/100),
                max 0 ((([⟨"Urea", 3, 10⟩] : List SaleItem).map
                  (fun p => p.qty * p.price)).sum - 0),
                "Cash", 30, 0, "staff2"⟩),
          stock :=
            (reduce_stock_in_db
              (increase_stock_in_db [("Urea", 5)]
                (incListOf [⟨"Urea", 3, 10⟩] [⟨"Urea", 3, 10⟩]))
              (redListOf [⟨"Urea", 3, 10⟩] [⟨"Urea", 3, 10⟩])),
          excelFY := [⟨7, "2025-05-01 10:00:00", "Asha", "9876543210", "V1", "",
            "Urea|3|10", 30, 0, 5.4, 30, "Cash", 30, 0, "admin"⟩],
          excelM := [⟨7, "2025-05-01 10:00:00", "Asha", "9876543210", "V1", "",
            "Urea|3|10", 30, 0, 5.4, 30, "Cash", 30, 0, "admin"⟩] } := by
    unfold update_loaded_bill
    rw [if_neg (by simp), if_neg (by simp), if_neg (by norm_num),
      if_neg (by push_neg; norm_num),
      if_neg (by
        rw [hsum]
        rw [show max (0 : ℚ) (30 - 0) = 30 by
          rw [max_eq_right (by norm_num)]
          norm_num]
        norm_num),
      hstock]
  refine ⟨_, hupd, ?_, ?_⟩
  · have h := update_loaded_bill_preserves _ _ 7 "2025-05-01 10:00:00"
      [⟨"Urea", 3, 10⟩] [⟨"Urea", 3, 10⟩] "Asha" "9876543210" "V1" "" 0 30 0
      "Cash" "staff2" intStr intStr
      ⟨7, "2025-05-01 10:00:00", "Asha", "9876543210", "V1", "", "Urea|3|10",
        30, 0, 5.4, 30, "Cash", 30, 0, "admin"⟩
      (by
        unfold lookupBill
        rw [List.find?_cons_of_pos _ (by simp)])
      rfl hupd
    exact h.1
  · have h := update_loaded_bill_preserves _ _ 7 "2025-05-01 10:00:00"
      [⟨"Urea", 3, 10⟩] [⟨"Urea", 3, 10⟩] "Asha" "9876543210" "V1" "" 0 30 0
      "Cash" "staff2" intStr intStr
      ⟨7, "2025-05-01 10:00:00", "Asha", "9876543210", "V1", "", "Urea|3|10",
        30, 0, 5.4, 30, "Cash", 30, 0, "admin"⟩
      (by
        unfold lookupBill
        rw [List.find?_cons_of_pos _ (by simp)])
      rfl hupd
    exact h.2.2.1

/-! ## C9: customer upsert on bill save
(sales.py:172-198 and utils.py:224-258) -/

/-- A customer record: a row of the `customers` SQLite table / the
"Customers" sheet of customer_data.xlsx. -/
structure CustRow where
  mobile : String
  name : String
  village : String
  aadhar : String
  entry_by : String
  created_at : String
deriving DecidableEq, Repr

/-- First record with the given mobile. -/
def lookupCust (l : List CustRow) (m : String) : Option CustRow :=
  l.find? (fun r => r.mobile == m)

/-- `insert_or_update_customer_in_db` (sales.py:172-198): if a row with the
mobile exists, `UPDATE` overwrites customer_name, village, aadhar, entry_by
and created_at with the new values unconditionally; else `INSERT`. -/
def insert_or_update_customer_in_db (db : List CustRow) (c : CustRow) :
    List CustRow :=
  if db.any (fun x => x.mobile == c.mobile) then
    db.map (fun x =>
      if x.mobile = c.mobile then
        { x with
          name := c.name, village := c.village, aadhar := c.aadhar,
          entry_by := c.entry_by, created_at := c.created_at }
      else x)
  else db ++ [c]

/-- Replace the first element satisfying `p` (the `break` after the first
matching sheet row in utils.py:242-246). -/
def updFirst (p : CustRow → Bool) (f : CustRow → CustRow) :
    List CustRow → List CustRow
  | [] => []
  | x :: xs => if p x then f x :: xs else x :: updFirst p f xs

/-- The per-row update of `add_or_update_customer` (utils.py:247-256):
name/village/aadhar are written only when the stored value is blank and the
new value non-empty; entry_by only when the new value is non-empty;
created_at always. -/
def backfill (custName village aadhar entryBy createdAt : String)
    (x : CustRow) : CustRow :=
  { x with
    name := if x.name = "" ∧ custName ≠ "" then custName else x.name,
    village := if x.village = "" ∧ village ≠ "" then village else x.village,
    aadhar := if x.aadhar = "" ∧ aadhar ≠ "" then aadhar else x.aadhar,
    entry_by := if entryBy ≠ "" then entryBy else x.entry_by,
    created_at := createdAt }

/-- `add_or_update_customer` (utils.py:224-258) on the "Customers" sheet:
backfill the first row with the mobile, else append a new row. -/
def add_or_update_customer (rows : List CustRow)
    (custName mobile village aadhar entryBy createdAt : String) : List CustRow :=
  if rows.any (fun x => x.mobile == mobile) then
    updFirst (fun x => x.mobile == mobile)
      (backfill custName village aadhar entryBy createdAt) rows
  else rows ++ [⟨mobile, custName, village, aadhar, entryBy, createdAt⟩]

/-- Claim C9 (counterexample): with an existing DB record for mobile
`9876543210` holding village "Vill1" and aadhar "A1", saving a bill with a
blank village and aadhar overwrites both with blanks — the DB customer
upsert is not first-non-empty-wins. -/
theorem customer_db_overwrite_counterexample :
    insert_or_update_customer_in_db
      [⟨"9876543210", "Alice", "Vill1", "A1", "e1", "t1"⟩]
      ⟨"9876543210", "Alice", "", "", "e2", "t2"⟩ =
      [⟨"9876543210", "Alice", "", "", "e2", "t2"⟩] ∧
    ("Vill1" : String) ≠ "" := by
  constructor
  · rfl
  · simp

theorem lookupCust_found_any {l : List CustRow} {m : String} {x : CustRow}
    (h : lookupCust l m = some x) :
    l.any (fun r => r.mobile == m) = true := by
  unfold lookupCust at h
  have hx := List.find?_some h
  exact List.any_eq_true.mpr ⟨x, List.mem_of_find?_eq_some h, hx⟩

theorem lookupCust_map_overwrite {db : List CustRow} {c : CustRow} {x : CustRow}
    (hfound : lookupCust db c.mobile = some x) :
    lookupCust
      (db.map (fun y =>
        if y.mobile = c.mobile then
          { y with
            name := c.name, village := c.village, aadhar := c.aadhar,
            entry_by := c.entry_by, created_at := c.created_at }
        else y)) c.mobile =
      some { x with
             name := c.name, village := c.village, aadhar := c.aadhar,
             entry_by := c.entry_by, created_at := c.created_at } := by
  induction db with
  | nil => exact absurd hfound (by simp [lookupCust])
  | cons y tl ih =>
    by_cases hy : y.mobile = c.mobile
    · unfold lookupCust at hfound
      rw [List.find?_cons_of_pos _ (by simpa using hy)] at hfound
      have hxy : y = x := Option.some.inj hfound
      subst hxy
      rw [List.map_cons, if_pos hy]
      unfold lookupCust
      rw [List.find?_cons_of_pos _ (by simpa using hy)]
    · unfold lookupCust at hfound
      rw [List.find?_cons_of_neg _ (by simpa using hy)] at hfound
      rw [List.map_cons, if_neg hy]
      unfold lookupCust
      rw [List.find?_cons_of_neg _ (by simpa using hy)]
      exact ih hfound

theorem lookupCust_updFirst {rows : List CustRow} {m : String} {y : CustRow}
    (f : CustRow → CustRow)
    (hfound : lookupCust rows m = some y)
    (hf : (f y).mobile = y.mobile) :
    lookupCust (updFirst (fun x => x.mobile == m) f rows) m = some (f y) := by
  induction rows with
  | nil => exact absurd hfound (by simp [lookupCust])
  | cons x tl ih =>
    by_cases hx : x.mobile = m
    · unfold lookupCust at hfound
      rw [List.find?_cons_of_pos _ (by simpa using hx)] at hfound
      have hxy : x = y := Option.some.inj hfound
      subst hxy
      unfold updFirst
      rw [if_pos (by simpa using hx)]
      unfold lookupCust
      rw [List.find?_cons_of_pos _ (by
        simp only [beq_iff_eq]
        rw [hf]
        exact hx)]
    · unfold lookupCust at hfound
      rw [List.find?_cons_of_neg _ (by simpa using hx)] at hfound
      unfold updFirst
      rw [if_neg (by simpa using hx)]
      unfold lookupCust
      rw [List.find?_cons_of_neg _ (by simpa using hx)]
      exact ih hfound

/-- Claim C9 (amended): on a bill save with an existing record for the
mobile, the relational `customers` row is overwritten with the new bill's
values unconditionally (blanks included); only the customer_data.xlsx
record follows first-non-empty-wins — its blank name/village/aadhar are
backfilled from non-empty new values and existing non-empty values are
kept, entry_by refreshes only when the new value is non-empty, and
created_at always refreshes. -/
theorem customer_upsert_spec (db rows : List CustRow) (c : CustRow)
    (custName mobile village aadhar entryBy createdAt : String) (x y : CustRow)
    (hdb : lookupCust db c.mobile = some x)
    (hxl : lookupCust rows mobile = some y) :
    lookupCust (insert_or_update_customer_in_db db c) c.mobile =
      some { x with
             name := c.name, village := c.village, aadhar := c.aadhar,
             entry_by := c.entry_by, created_at := c.created_at } ∧
    lookupCust
        (add_or_update_customer rows custName mobile village aadhar entryBy
          createdAt) mobile =
      some (backfill custName village aadhar entryBy createdAt y) := by
  constructor
  · unfold insert_or_update_customer_in_db
    rw [if_pos (lookupCust_found_any hdb)]
    exact lookupCust_map_overwrite hdb
  · unfold add_or_update_customer
    rw [if_pos (lookupCust_found_any hxl)]
    exact lookupCust_updFirst _ hxl rfl

/-- Witness for `customer_upsert_spec`: existing records with village
"Vill1"; the DB row's village is blanked by the new empty value while the
sheet row keeps "Vill1" and backfills the blank aadhar. -/
theorem customer_upsert_spec_witness :
    lookupCust
      (insert_or_update_customer_in_db
        [⟨"9876543210", "Alice", "Vill1", "", "e1", "t1"⟩]
        ⟨"9876543210", "Alice", "", "A2", "e2", "t2"⟩) "9876543210" =
      some ⟨"9876543210", "Alice", "", "A2", "e2", "t2"⟩ ∧
    lookupCust
      (add_or_update_customer
        [⟨"9876543210", "Alice", "Vill1", "", "e1", "t1"⟩]
        "Alice" "9876543210" "" "A2" "e2" "t2") "9876543210" =
      some ⟨"9876543210", "Alice", "Vill1", "A2", "e2", "t2"⟩ := by
  have h := customer_upsert_spec
    [⟨"9876543210", "Alice", "Vill1", "", "e1", "t1"⟩]
    [⟨"9876543210", "Alice", "Vill1", "", "e1", "t1"⟩]
    ⟨"9876543210", "Alice", "", "A2", "e2", "t2"⟩
    "Alice" "9876543210" "" "A2" "e2" "t2"
    ⟨"9876543210", "Alice", "Vill1", "", "e1", "t1"⟩
    ⟨"9876543210", "Alice", "Vill1", "", "e1", "t1"⟩
    rfl rfl
  refine ⟨h.1, ?_⟩
  have h2 := h.2
  rw [show backfill "Alice" "" "A2" "e2" "t2"
      ⟨"9876543210", "Alice", "Vill1", "", "e1", "t1"⟩ =
      ⟨"9876543210", "Alice", "Vill1", "A2", "e2", "t2"⟩ from by
    unfold backfill
    simp] at h2
  exact h2

end RetailBilling
